import Mathlib

/-!
Shallow embedding of the KVDK hash-collection storage core, covering
`HashList` (src/volatile/engine/hash_collection/hash_list.cpp,
src/engine/hash_collection/hash_list.hpp) and `OldRecordsCleaner`
(src/engine/version/old_records_cleaner.cpp).

Modelling conventions:
- Byte strings (keys, values) are `List Nat` of byte values.
- Machine state (record arena, doubly-linked list, hash index, size counter)
  is carried explicitly in `HashListState`; the allocator is a parameter
  `alloc : Nat → SpaceEntry` and each operation additionally returns the list
  of allocation request sizes it issued, so "allocated no space" is observable.
- `std::abort()`, a failing `kvdk_assert` (crash-stop per spec section 7), a
  dangling pointer dereference, and a sequentially non-terminating retry loop
  are all modelled as `Option.none`: no result is produced.
- The `DLList`, `DLRecord` construction and `HashTable` implementations are
  not part of the given sources (only their callers are); those operations
  are modelled from the spec (sections 4.2, 6.2) and say so in their
  doc comments.
-/

namespace KVDK

/-- Byte strings: keys and values as lists of byte values. -/
abbrev Bytes := List Nat

/-- Engine status codes (spec section 6.5). -/
inductive Status where
  | Ok
  | NotFound
  | MemoryOverflow
  | InvalidArgument
  | Abort
  | Fail
deriving DecidableEq, Repr

/-- Record status: `Normal` live data, `Outdated` tombstone or superseded. -/
inductive RecordStatus where
  | Normal
  | Outdated
deriving DecidableEq, Repr

/-- Record types. The hash collection uses `HashElem` and `HashHeader`;
the other constructors stand for the remaining engine record types, which a
hash collection must never encounter. -/
inductive RecordType where
  | HashElem
  | HashHeader
  | StringRecord
  | SortedElem
  | SortedHeader
deriving DecidableEq, Repr

/-- Write operations of the two-phase write path. -/
inductive WriteOp where
  | Put
  | Delete
deriving DecidableEq, Repr

/-- Outcomes a user transformer passed to `HashList::Modify` may request. -/
inductive ModifyOperation where
  | Write
  | Delete
  | Abort
  | Noop
deriving DecidableEq, Repr

/-- Allocator grant: offset into the arena plus granted size (spec section
6.1); `size = 0` signals allocation failure. -/
structure SpaceEntry where
  offset : Nat
  size : Nat
deriving DecidableEq, Repr

/-- On-storage record (spec section 3 and 6.4). `old_version` is the offset of
the superseded record of the same key, `none` for null. -/
structure DLRecord where
  record_size : Nat
  timestamp : Nat
  record_type : RecordType
  record_status : RecordStatus
  prev : Nat
  next : Nat
  old_version : Option Nat
  expire_time : Int
  key : Bytes
  value : Bytes
deriving DecidableEq, Repr

/-- Hash index entry: cached record type and status plus the offset of the
indexed record (spec section 6.2). -/
structure HashEntry where
  record_type : RecordType
  record_status : RecordStatus
  dl_record : Nat
deriving DecidableEq, Repr

/-- Result of a hash index lookup (spec section 6.2). -/
structure LookupResult where
  s : Status
  entry : Option HashEntry
deriving DecidableEq, Repr

/-- Little-endian 8-byte encoding of a collection id (spec section 6.4). -/
def encodeID (id : Nat) : Bytes :=
  (List.range 8).map fun i => id / 256 ^ i % 256

/-- Little-endian decoding of the first 8 bytes. -/
def decodeID (b : Bytes) : Nat :=
  (b.take 8).reverse.foldl (fun acc x => acc * 256 + x) 0

/-- Collection::ExtractID: the collection id prefixed to an internal key. -/
def ExtractID (internal_key : Bytes) : Nat := decodeID internal_key

/-- Collection::DecodeID: the collection id encoded in a header's value. -/
def DecodeID (v : Bytes) : Nat := decodeID v

/-- DLRecord::RecordSize: total record size for a key and value, 64-byte
header padded up to a 64-byte multiple (spec section 4.1). -/
def DLRecord.RecordSize (k v : Bytes) : Nat :=
  (64 + k.length + v.length + 63) / 64 * 64

/-- Lookup in an association list keyed by record offset. -/
def storeFind : List (Nat × DLRecord) → Nat → Option DLRecord
  | [], _ => none
  | (o, r) :: rest, q => if o = q then some r else storeFind rest q

/-- Insert or overwrite a record at an offset in the arena. -/
def storePut : List (Nat × DLRecord) → Nat → DLRecord → List (Nat × DLRecord)
  | [], q, r => [(q, r)]
  | (o, r0) :: rest, q, r => if o = q then (q, r) :: rest else (o, r0) :: storePut rest q r

/-- Lookup in the hash index by internal key. -/
def idxFind : List (Bytes × HashEntry) → Bytes → Option HashEntry
  | [], _ => none
  | (k, e) :: rest, q => if k = q then some e else idxFind rest q

/-- Insert or overwrite a hash index entry. -/
def idxInsert : List (Bytes × HashEntry) → Bytes → HashEntry → List (Bytes × HashEntry)
  | [], q, e => [(q, e)]
  | (k, e0) :: rest, q, e => if k = q then (q, e) :: rest else (k, e0) :: idxInsert rest q e

/-- Replace the first occurrence of an offset in a list of linked offsets. -/
def listSubst : List Nat → Nat → Nat → List Nat
  | [], _, _ => []
  | o :: rest, old_off, new_off =>
    if o = old_off then new_off :: rest else o :: listSubst rest old_off new_off

/-- State of one hash collection: identity of the façade object (`self_tag`
models the `this` pointer), the collection id, the header record's offset, the
record arena, the linked element offsets in list order (header excluded), the
hash index restricted to this collection's keys, and the size counter. -/
structure HashListState where
  self_tag : Nat
  collection_id : Nat
  header_off : Nat
  store : List (Nat × DLRecord)
  dl_order : List Nat
  hash_index : List (Bytes × HashEntry)
  size : Nat
deriving DecidableEq, Repr

/-- Collection::InternalKey: collection id (8 bytes little-endian) prefixed to
the user sub-key (spec section 6.4). -/
def HashListState.InternalKey (st : HashListState) (key : Bytes) : Bytes :=
  encodeID st.collection_id ++ key

/-- Modelled from the spec: `HashTable::Lookup` (section 6.2); the hash table
implementation is not among the given sources. Returns `Ok` with the entry
when the internal key is indexed and `NotFound` otherwise; reservation of an
empty slot on miss does not change the observable key-to-record mapping, so
the lookup is read-only here. -/
def HashListState.lookup (st : HashListState) (internal_key : Bytes) : LookupResult :=
  match idxFind st.hash_index internal_key with
  | some e => { s := Status.Ok, entry := some e }
  | none => { s := Status.NotFound, entry := none }

/-- Arguments of a DLList write (DLList::WriteArgs). -/
structure DLWriteArgs where
  key : Bytes
  value : Bytes
  record_type : RecordType
  record_status : RecordStatus
  ts : Nat
  space : SpaceEntry
deriving DecidableEq, Repr

/-- Modelled from the spec: `DLList::Update` (section 4.2); the DLList
implementation is not among the given sources. Atomically replaces `old_off`
with a fresh record at the reserved space that inherits the old record's
`prev`/`next`, has `old_version = offset(old)`, and carries the new timestamp;
returns `Fail` if `old_off` is no longer linked. -/
def dlUpdate (st : HashListState) (a : DLWriteArgs) (old_off : Nat) :
    Status × HashListState :=
  if old_off ∈ st.dl_order then
    match storeFind st.store old_off with
    | some old_rec =>
      let new_rec : DLRecord :=
        { record_size := a.space.size, timestamp := a.ts,
          record_type := a.record_type, record_status := a.record_status,
          prev := old_rec.prev, next := old_rec.next,
          old_version := some old_off, expire_time := 0,
          key := a.key, value := a.value }
      (Status.Ok,
        { st with store := storePut st.store a.space.offset new_rec,
                  dl_order := listSubst st.dl_order old_off a.space.offset })
    | none => (Status.Fail, st)
  else (Status.Fail, st)

/-- Modelled from the spec: `DLList::PushFront` (section 4.2). Constructs a
fresh record (no `old_version` link) at the reserved space and splices it
right after the header. -/
def dlPushFront (st : HashListState) (a : DLWriteArgs) : Status × HashListState :=
  let new_rec : DLRecord :=
    { record_size := a.space.size, timestamp := a.ts,
      record_type := a.record_type, record_status := a.record_status,
      prev := st.header_off, next := st.dl_order.headD st.header_off,
      old_version := none, expire_time := 0, key := a.key, value := a.value }
  (Status.Ok,
    { st with store := storePut st.store a.space.offset new_rec,
              dl_order := a.space.offset :: st.dl_order })

/-- Modelled from the spec: `DLList::PushBack` (section 4.2). Constructs a
fresh record (no `old_version` link) at the reserved space and splices it
right before the header. -/
def dlPushBack (st : HashListState) (a : DLWriteArgs) : Status × HashListState :=
  let new_rec : DLRecord :=
    { record_size := a.space.size, timestamp := a.ts,
      record_type := a.record_type, record_status := a.record_status,
      prev := (st.dl_order.getLastD st.header_off), next := st.header_off,
      old_version := none, expire_time := 0, key := a.key, value := a.value }
  (Status.Ok,
    { st with store := storePut st.store a.space.offset new_rec,
              dl_order := st.dl_order ++ [a.space.offset] })

/-- Modelled from the spec: `DLRecord::ConstructDLRecord` (section 4.1 and the
call in HashList::SetExpireTime). Produces the record value placed at the
reserved space. -/
def constructDLRecord (record_size timestamp : Nat) (rt : RecordType)
    (rs : RecordStatus) (old_version : Option Nat) (prev next : Nat)
    (k v : Bytes) (expire_time : Int) : DLRecord :=
  { record_size := record_size, timestamp := timestamp, record_type := rt,
    record_status := rs, prev := prev, next := next,
    old_version := old_version, expire_time := expire_time, key := k, value := v }

/-- Modelled from the spec: `DLList::Replace` (section 4.2), used by header
rewrites; returns false only if the old record is not linked. Replacing the
header sentinel repoints the list's header. -/
def dlReplace (st : HashListState) (old_off new_off : Nat) : Bool × HashListState :=
  if old_off = st.header_off then
    (true, { st with header_off := new_off })
  else if old_off ∈ st.dl_order then
    (true, { st with dl_order := listSubst st.dl_order old_off new_off })
  else (false, st)

/-- Result of a HashList write operation (hash_list.hpp); records are named
by their offsets. The `hash_entry_ptr` member is not modelled: no claim
mentions it. -/
structure WriteResult where
  s : Status := Status.Ok
  existing_record : Option Nat := none
  write_record : Option Nat := none
deriving DecidableEq, Repr

/-- Transient write descriptor (hash_list.hpp `HashWriteArgs`); `hlist` holds
the tag of the collection the descriptor is bound to. -/
structure HashWriteArgs where
  key : Bytes
  value : Bytes
  op : WriteOp
  hlist : Nat
  space : SpaceEntry := { offset := 0, size := 0 }
  ts : Nat := 0
  lookup_result : LookupResult := { s := Status.NotFound, entry := none }
deriving DecidableEq, Repr

namespace HashList

/-- HashList::InitWriteArgs. -/
def InitWriteArgs (st : HashListState) (key value : Bytes) (op : WriteOp) :
    HashWriteArgs :=
  { key := key, value := value, op := op, hlist := st.self_tag }

/-- HashList::UpdateSize: adjusts the size counter; the assertion that the
size never goes negative is crash-stop on failure. -/
def UpdateSize (st : HashListState) (delta : Int) : Option HashListState :=
  if delta < 0 ∧ (st.size : Int) < -delta then none
  else some { st with size := ((st.size : Int) + delta).toNat }

/-- HashList::PrepareWrite. Checks the collection binding, looks up the
internal key, decides whether space is needed (a delete of an absent or
already-Outdated entry needs none), and allocates it; a zero-sized grant is
MemoryOverflow. Returns the prepare status, the filled-in args and the list
of allocation request sizes issued. -/
def PrepareWrite (st : HashListState) (args : HashWriteArgs) (ts : Nat)
    (alloc : Nat → SpaceEntry) : Option (Status × HashWriteArgs × List Nat) :=
  if ¬ (args.op = WriteOp.Put ∨ args.value = []) then none
  else if args.hlist ≠ st.self_tag then some (Status.InvalidArgument, args, [])
  else
    let op_delete : Bool := args.op == WriteOp.Delete
    let internal_key := st.InternalKey args.key
    let lr := st.lookup internal_key
    let args1 := { args with ts := ts, lookup_result := lr }
    let finish : Bool → Option (Status × HashWriteArgs × List Nat) :=
      fun allocate_space =>
        if allocate_space then
          let request_size := DLRecord.RecordSize internal_key args1.value
          let space := alloc request_size
          if space.size = 0 then some (Status.MemoryOverflow, args1, [request_size])
          else some (Status.Ok, { args1 with space := space }, [request_size])
        else some (Status.Ok, args1, [])
    match lr.s with
    | Status.Ok =>
      match lr.entry with
      | some e => finish (! (op_delete && (e.record_status == RecordStatus.Outdated)))
      | none => none
    | Status.NotFound => finish (! op_delete)
    | Status.MemoryOverflow => some (Status.MemoryOverflow, args1, [])
    | _ => none

/-- HashList::putPrepared. If the lookup returned `Ok`, the existing record
(whatever its status) is replaced in place via `DLList::Update`, retried on
`Fail` (sequentially a first `Fail` can never make progress, so it is modelled
as no result); otherwise a fresh record is pushed front or back, the side
chosen by `fast_random_64() % 2`. The hash index is then pointed at the new
record with status `Normal`. -/
def putPrepared (st : HashListState) (lookup_result : LookupResult)
    (key value : Bytes) (timestamp : Nat) (space : SpaceEntry) (rnd : Nat) :
    Option (WriteResult × HashListState) :=
  let internal_key := st.InternalKey key
  let args : DLWriteArgs :=
    { key := internal_key, value := value, record_type := RecordType.HashElem,
      record_status := RecordStatus.Normal, ts := timestamp, space := space }
  let write_record := space.offset
  let branch : Option (WriteResult × HashListState) :=
    if lookup_result.s = Status.Ok then
      match lookup_result.entry with
      | none => none
      | some e =>
        match storeFind st.store e.dl_record with
        | none => none
        | some existing_rec =>
          if timestamp ≤ existing_rec.timestamp then none
          else
            let upd := dlUpdate st args e.dl_record
            if upd.1 = Status.Ok then
              some ({ s := Status.Ok, existing_record := some e.dl_record,
                      write_record := some write_record }, upd.2)
            else none
    else if lookup_result.s = Status.NotFound then
      let push_back : Bool := rnd % 2 == 0
      let pushed := if push_back then dlPushBack st args else dlPushFront st args
      if pushed.1 = Status.Ok then
        some ({ s := Status.Ok, existing_record := none,
                write_record := some write_record }, pushed.2)
      else none
    else none
  branch.map fun p =>
    let new_entry : HashEntry :=
      { record_type := RecordType.HashElem, record_status := RecordStatus.Normal,
        dl_record := write_record }
    (p.1, { p.2 with hash_index := idxInsert p.2.hash_index internal_key new_entry })

/-- HashList::deletePrepared. Asserts the lookup found a `Normal` `HashElem`
entry (crash-stop otherwise), replaces the existing record in place with an
`Outdated` tombstone carrying an empty value, and points the hash index at
the tombstone. -/
def deletePrepared (st : HashListState) (lookup_result : LookupResult)
    (key : Bytes) (timestamp : Nat) (space : SpaceEntry) :
    Option (WriteResult × HashListState) :=
  let internal_key := st.InternalKey key
  match lookup_result.entry with
  | none => none
  | some e =>
    if ¬ (lookup_result.s = Status.Ok ∧ e.record_type = RecordType.HashElem ∧
          e.record_status = RecordStatus.Normal) then none
    else if space.size < DLRecord.RecordSize internal_key [] then none
    else
      match storeFind st.store e.dl_record with
      | none => none
      | some existing_rec =>
        if timestamp ≤ existing_rec.timestamp then none
        else
          let args : DLWriteArgs :=
            { key := internal_key, value := [], record_type := RecordType.HashElem,
              record_status := RecordStatus.Outdated, ts := timestamp, space := space }
          let upd := dlUpdate st args e.dl_record
          let tomb_entry : HashEntry :=
            { record_type := RecordType.HashElem,
              record_status := RecordStatus.Outdated, dl_record := space.offset }
          if upd.1 = Status.Ok then
            some ({ s := Status.Ok, existing_record := some e.dl_record,
                    write_record := some space.offset },
              { upd.2 with
                  hash_index := idxInsert upd.2.hash_index internal_key tomb_entry })
          else none

/-- HashList::Write. Rejects a descriptor bound to another collection, then
dispatches to `putPrepared` or `deletePrepared` and adjusts the size counter:
plus one when a put superseded nothing live (absent or Outdated existing
record), minus one when a delete tombstoned a `Normal` record. -/
def Write (st : HashListState) (args : HashWriteArgs) (rnd : Nat) :
    Option (WriteResult × HashListState) :=
  if args.hlist ≠ st.self_tag then some ({ s := Status.InvalidArgument }, st)
  else if args.op = WriteOp.Put then
    (putPrepared st args.lookup_result args.key args.value args.ts args.space rnd).bind
      fun p =>
        match p.1.existing_record with
        | none => (UpdateSize p.2 1).map fun st2 => (p.1, st2)
        | some off =>
          match storeFind p.2.store off with
          | none => none
          | some r =>
            if r.record_status = RecordStatus.Outdated then
              (UpdateSize p.2 1).map fun st2 => (p.1, st2)
            else some (p.1, p.2)
  else
    (deletePrepared st args.lookup_result args.key args.ts args.space).bind
      fun p =>
        match p.1.existing_record with
        | none => some (p.1, p.2)
        | some off =>
          match storeFind p.2.store off with
          | none => none
          | some r =>
            if r.record_status = RecordStatus.Normal then
              (UpdateSize p.2 (-1)).map fun st2 => (p.1, st2)
            else some (p.1, p.2)

/-- HashList::Put: InitWriteArgs, PrepareWrite, then Write when the prepare
succeeded. -/
def Put (st : HashListState) (key value : Bytes) (timestamp : Nat)
    (alloc : Nat → SpaceEntry) (rnd : Nat) :
    Option (WriteResult × HashListState × List Nat) :=
  let args := InitWriteArgs st key value WriteOp.Put
  (PrepareWrite st args timestamp alloc).bind fun r =>
    if r.1 = Status.Ok then
      (Write st r.2.1 rnd).map fun p => (p.1, p.2, r.2.2)
    else some ({ s := r.1 }, st, r.2.2)

/-- HashList::Get. Checks the hash index entry's status, then re-checks the
pointed-to record's own status, and only then returns the record's value. -/
def Get (st : HashListState) (key : Bytes) : Option (Status × Option Bytes) :=
  let internal_key := st.InternalKey key
  let lr := st.lookup internal_key
  if lr.s ≠ Status.Ok then some (Status.NotFound, none)
  else
    match lr.entry with
    | none => none
    | some e =>
      if e.record_status = RecordStatus.Outdated then some (Status.NotFound, none)
      else
        match storeFind st.store e.dl_record with
        | none => none
        | some r =>
          if r.record_type ≠ RecordType.HashElem then none
          else if r.record_status = RecordStatus.Outdated then
            some (Status.NotFound, none)
          else some (Status.Ok, some r.value)

/-- HashList::Delete: InitWriteArgs with an empty value, PrepareWrite, then
Write only when the prepare succeeded and space was actually reserved. -/
def Delete (st : HashListState) (key : Bytes) (timestamp : Nat)
    (alloc : Nat → SpaceEntry) :
    Option (WriteResult × HashListState × List Nat) :=
  let args := InitWriteArgs st key [] WriteOp.Delete
  (PrepareWrite st args timestamp alloc).bind fun r =>
    if r.1 = Status.Ok ∧ 0 < r.2.1.space.size then
      (Write st r.2.1 0).map fun p => (p.1, p.2, r.2.2)
    else some ({ s := r.1 }, st, r.2.2)

/-- First half of HashList::Modify: look up the key and read the existing
record and its value (the value only when the record is not Outdated).
Returns the existing record offset (when the lookup succeeded) and the value
handed to the transformer; crash-stop on a dangling index entry. -/
def modifyLookupExisting (st : HashListState) (key : Bytes) :
    Option (Option Nat × Option Bytes) :=
  let lr := st.lookup (st.InternalKey key)
  match lr.s, lr.entry with
  | Status.Ok, none => none
  | Status.Ok, some e =>
    match storeFind st.store e.dl_record with
    | none => none
    | some r =>
      if r.record_status ≠ RecordStatus.Outdated then
        some (some e.dl_record, some r.value)
      else some (some e.dl_record, none)
  | Status.NotFound, _ => some (none, none)
  | _, _ => none

/-- Second half of HashList::Modify: run the transformer on the existing
value and dispatch on its verdict. `Write` and `Delete` allocate space (a
zero-sized grant is MemoryOverflow) and run `Write`; `Abort` and `Noop`
return without writing. -/
def modifyDispatch (st : HashListState) (key : Bytes) (lr : LookupResult)
    (existing_record : Option Nat) (existing_value : Option Bytes)
    (modify_func : Option Bytes → ModifyOperation × Bytes) (ts : Nat)
    (alloc : Nat → SpaceEntry) (rnd : Nat) :
    Option (WriteResult × HashListState × List Nat) :=
  let internal_key := st.InternalKey key
  let mr := modify_func existing_value
  let new_value := mr.2
  match mr.1 with
  | ModifyOperation.Write =>
    let request_size := DLRecord.RecordSize internal_key new_value
    let space := alloc request_size
    if space.size = 0 then
      some ({ s := Status.MemoryOverflow, existing_record := existing_record },
        st, [request_size])
    else
      let args : HashWriteArgs :=
        { key := key, value := new_value, op := WriteOp.Put, hlist := st.self_tag,
          space := space, ts := ts, lookup_result := lr }
      (Write st args rnd).map fun p => (p.1, p.2, [request_size])
  | ModifyOperation.Delete =>
    let request_size := DLRecord.RecordSize internal_key []
    let space := alloc request_size
    if space.size = 0 then
      some ({ s := Status.MemoryOverflow, existing_record := existing_record },
        st, [request_size])
    else
      let args : HashWriteArgs :=
        { key := key, value := [], op := WriteOp.Delete, hlist := st.self_tag,
          space := space, ts := ts, lookup_result := lr }
      (Write st args rnd).map fun p => (p.1, p.2, [request_size])
  | ModifyOperation.Abort =>
    some ({ s := Status.Abort, existing_record := existing_record }, st, [])
  | ModifyOperation.Noop =>
    some ({ s := Status.Ok, existing_record := existing_record }, st, [])

/-- HashList::Modify. The early return propagating a lookup status other than
Ok or NotFound is dead here: the modelled lookup produces only those two. -/
def Modify (st : HashListState) (key : Bytes)
    (modify_func : Option Bytes → ModifyOperation × Bytes) (ts : Nat)
    (alloc : Nat → SpaceEntry) (rnd : Nat) :
    Option (WriteResult × HashListState × List Nat) :=
  match modifyLookupExisting st key with
  | none => none
  | some p =>
    modifyDispatch st key (st.lookup (st.InternalKey key)) p.1 p.2 modify_func
      ts alloc rnd

/-- HashList::SetExpireTime. Allocates space sized for the header's key and
value, constructs a new HashHeader record carrying the old header's key and
value, the given timestamp and expire time, and `old_version` pointing at the
old header, then replaces the old header via `DLList::Replace` (asserted to
succeed: crash-stop on failure). A zero-sized grant is MemoryOverflow. -/
def SetExpireTime (st : HashListState) (expired_time : Int) (timestamp : Nat)
    (alloc : Nat → SpaceEntry) :
    Option (WriteResult × HashListState × List Nat) :=
  match storeFind st.store st.header_off with
  | none => none
  | some header =>
    let request_size := DLRecord.RecordSize header.key header.value
    let space := alloc request_size
    if space.size = 0 then
      some ({ s := Status.MemoryOverflow }, st, [request_size])
    else
      let data_record := constructDLRecord space.size timestamp
        RecordType.HashHeader RecordStatus.Normal (some st.header_off)
        header.prev header.next header.key header.value expired_time
      let st1 := { st with store := storePut st.store space.offset data_record }
      let rep := dlReplace st1 st.header_off space.offset
      if rep.1 then
        some ({ s := Status.Ok, existing_record := some st.header_off,
                write_record := some space.offset }, rep.2, [request_size])
      else none

/-- HashList::FetchID: the collection id of a record; for any other record
type the source logs and asserts. `kvdk_assert` is modelled from the spec
(section 7: unknown record types in FetchID are crash-stop), making the
trailing `return 0` of the source unreachable. -/
def FetchID (record : DLRecord) : Option Nat :=
  match record.record_type with
  | RecordType.HashElem => some (ExtractID record.key)
  | RecordType.HashHeader => some (DecodeID record.value)
  | _ => none

end HashList

/-- Engine-level record types as seen by the cleaner (`DataEntry.meta.type`);
`Empty` stands for any type outside the four the cleaner handles. -/
inductive DataEntryType where
  | StringDataRecord
  | SortedDataRecord
  | StringDeleteRecord
  | SortedDeleteRecord
  | Empty
deriving DecidableEq, Repr

/-- Header of a record the cleaner retires: its type, its total size and its
address (`addr2offset` is modelled as the identity on addresses). -/
structure DataEntry where
  etype : DataEntryType
  record_size : Nat
  addr : Nat
deriving DecidableEq, Repr

/-- Superseded data record queued by a writer: the record plus the
superseding writer's timestamp. -/
structure OldDataRecord where
  pmem_data_record : DataEntry
  newer_version_timestamp : Nat
deriving DecidableEq, Repr

/-- Retired tombstone queued by a writer: the tombstone record, the
superseding writer's timestamp and the hash entry cell it logically retired
(named by a cell id; the per-cell lock is implicit in the sequential model).
-/
structure OldDeleteRecord where
  pmem_delete_record : DataEntry
  newer_version_timestamp : Nat
  hash_entry_ref : Nat
deriving DecidableEq, Repr

/-- Queued batch of freed spaces gated on a later timestamp boundary. -/
structure PendingFreeSpaceEntries where
  entries : List SpaceEntry
  free_ts : Nat
deriving DecidableEq, Repr

/-- Per-worker cleaner cache (the spinlock is implicit in the sequential
model). -/
structure ThreadCache where
  old_data_records : List OldDataRecord
  old_delete_records : List OldDeleteRecord
deriving DecidableEq, Repr

/-- State of the cleaner: per-worker caches, global queues, the FIFO of
pending free-space batches and the timestamp of the last full sweep. -/
structure OldRecordsCleaner where
  thread_cache : List ThreadCache
  global_old_data_records : List (List OldDataRecord)
  global_old_delete_records : List (List OldDeleteRecord)
  pending_free_space_entries : List PendingFreeSpaceEntries
  last_clean_all_ts : Nat
deriving DecidableEq, Repr

/-- The part of the engine the cleaner's purges touch besides the records
themselves: hash entry cells (cell id mapped to the address of the record the
index points at) and the set of record addresses still spliced in sorted
lists. Modelled from the spec (section 4.4 purge semantics); the hash table
and skiplist implementations are not among the given sources. -/
structure CleanerWorld where
  cells : List (Nat × Nat)
  linked : List Nat
deriving DecidableEq, Repr

/-- Lookup of a hash entry cell's current target address. -/
def cellFind : List (Nat × Nat) → Nat → Option Nat
  | [], _ => none
  | (c, t) :: rest, q => if c = q then some t else cellFind rest q

/-- Clearing a hash entry cell. -/
def cellClear : List (Nat × Nat) → Nat → List (Nat × Nat)
  | [], _ => []
  | (c, t) :: rest, q => if c = q then rest else (c, t) :: cellClear rest q

namespace OldRecordsCleaner

/-- OldRecordsCleaner::purgeOldDataRecord: destroy the record and return its
space; any type other than a string or sorted data record is `std::abort()`
(crash-stop, modelled as `none`). -/
def purgeOldDataRecord (r : OldDataRecord) : Option SpaceEntry :=
  match r.pmem_data_record.etype with
  | DataEntryType.StringDataRecord =>
    some { offset := r.pmem_data_record.addr, size := r.pmem_data_record.record_size }
  | DataEntryType.SortedDataRecord =>
    some { offset := r.pmem_data_record.addr, size := r.pmem_data_record.record_size }
  | _ => none

/-- OldRecordsCleaner::purgeOldDeleteRecord. For a string delete record the
hash entry cell is cleared when it still points at the tombstone; for a
sorted delete record the tombstone is additionally spliced out of its list
(`Skiplist::Purge` is modelled from the spec, section 4.4, as the sequential
always-successful splice, so the retry loop runs once). Any other type is
`std::abort()` (crash-stop, modelled as `none`). The returned space entry is
the tombstone's address and size in every non-aborting case. -/
def purgeOldDeleteRecord (w : CleanerWorld) (r : OldDeleteRecord) :
    Option (SpaceEntry × CleanerWorld) :=
  let d := r.pmem_delete_record
  match d.etype with
  | DataEntryType.StringDeleteRecord =>
    let w1 :=
      if cellFind w.cells r.hash_entry_ref = some d.addr then
        { w with cells := cellClear w.cells r.hash_entry_ref }
      else w
    some ({ offset := d.addr, size := d.record_size }, w1)
  | DataEntryType.SortedDeleteRecord =>
    let w1 :=
      if cellFind w.cells r.hash_entry_ref = some d.addr then
        { cells := cellClear w.cells r.hash_entry_ref,
          linked := w.linked.filter fun a => a ≠ d.addr }
      else w
    some ({ offset := d.addr, size := d.record_size }, w1)
  | _ => none

/-- The cache-draining loop at the head of TryCleanAll: a worker's old-data
records always move to the global queues when present; its old-delete records
move only past the 10000000 high-water mark. -/
def drainCaches :
    List ThreadCache → List (List OldDataRecord) → List (List OldDeleteRecord) →
    List ThreadCache × List (List OldDataRecord) × List (List OldDeleteRecord)
  | [], gd, gdel => ([], gd, gdel)
  | tc :: rest, gd, gdel =>
    if 0 < tc.old_data_records.length ∨ 10000000 < tc.old_delete_records.length then
      let step1 : ThreadCache × List (List OldDataRecord) :=
        if 0 < tc.old_data_records.length then
          ({ tc with old_data_records := [] }, gd ++ [tc.old_data_records])
        else (tc, gd)
      let step2 : ThreadCache × List (List OldDeleteRecord) :=
        if 10000000 < step1.1.old_delete_records.length then
          ({ step1.1 with old_delete_records := [] }, gdel ++ [step1.1.old_delete_records])
        else (step1.1, gdel)
      let tail := drainCaches rest step1.2 step2.2
      (step2.1 :: tail.1, tail.2)
    else
      let tail := drainCaches rest gd gdel
      (tc :: tail.1, tail.2)

/-- The old-data scan of TryCleanAll: purge each record whose
`newer_version_timestamp` is at most the oldest snapshot timestamp, keep the
rest for a later pass, preserving order. -/
def purgeDataPass : List OldDataRecord → Nat → Option (List SpaceEntry × List OldDataRecord)
  | [], _ => some ([], [])
  | r :: rest, oldest =>
    if r.newer_version_timestamp ≤ oldest then
      match purgeOldDataRecord r with
      | none => none
      | some sp => (purgeDataPass rest oldest).map fun p => (sp :: p.1, p.2)
    else (purgeDataPass rest oldest).map fun p => (p.1, r :: p.2)

/-- The old-delete scan of TryCleanAll: same eligibility test, threading the
engine state the purges touch. -/
def purgeDeletePass : List OldDeleteRecord → Nat → CleanerWorld →
    Option (List SpaceEntry × List OldDeleteRecord × CleanerWorld)
  | [], _, w => some ([], [], w)
  | r :: rest, oldest, w =>
    if r.newer_version_timestamp ≤ oldest then
      match purgeOldDeleteRecord w r with
      | none => none
      | some sw => (purgeDeletePass rest oldest sw.2).map fun p =>
          (sw.1 :: p.1, p.2.1, p.2.2)
    else (purgeDeletePass rest oldest w).map fun p => (p.1, r :: p.2.1, p.2.2)

/-- The pending-batch drain loop of TryCleanAll: batch-free from the head of
the FIFO while `free_ts < oldest_snapshot_ts`, stopping at the first batch
that is not eligible. Returns the freed batches and the remaining FIFO. -/
def drainPending : List PendingFreeSpaceEntries → Nat →
    List (List SpaceEntry) × List PendingFreeSpaceEntries
  | [], _ => ([], [])
  | b :: rest, oldest =>
    if b.free_ts < oldest then
      let p := drainPending rest oldest
      (b.entries :: p.1, p.2)
    else ([], b :: rest)

/-- OldRecordsCleaner::TryCleanAll. `ts` is the timestamp snapshot taken on
entry, `oldest_snapshot_ts` the refreshed oldest-snapshot floor, `now2` the
timestamp stamped on the new pending batch. Returns the new cleaner state,
the updated engine state and the batches handed to `BatchFree` in call order
(drained pending batches first, then the purged data records' spaces). -/
def TryCleanAll (c : OldRecordsCleaner) (w : CleanerWorld)
    (ts oldest_snapshot_ts now2 : Nat) :
    Option (OldRecordsCleaner × CleanerWorld × List (List SpaceEntry)) :=
  let drained := drainCaches c.thread_cache c.global_old_data_records
    c.global_old_delete_records
  match purgeDataPass drained.2.1.flatten oldest_snapshot_ts with
  | none => none
  | some dp =>
    match purgeDeletePass drained.2.2.flatten oldest_snapshot_ts w with
    | none => none
    | some delp =>
      let space_to_free := dp.1
      let data_record_refered := dp.2
      let delete_record_refered := delp.2.1
      let pending1 :=
        if 0 < delp.1.length then
          c.pending_free_space_entries ++ [{ entries := delp.1, free_ts := now2 }]
        else c.pending_free_space_entries
      let drain := drainPending pending1 oldest_snapshot_ts
      let freed := drain.1 ++ (if 0 < space_to_free.length then [space_to_free] else [])
      some ({ thread_cache := drained.1,
              global_old_data_records := [data_record_refered],
              global_old_delete_records := [delete_record_refered],
              pending_free_space_entries := drain.2,
              last_clean_all_ts := ts }, delp.2.2, freed)

end OldRecordsCleaner

/-- The space entry that purging a delete record returns in every
non-aborting case: the tombstone's address and size. -/
def deleteRecordSpace (r : OldDeleteRecord) : SpaceEntry :=
  { offset := r.pmem_delete_record.addr, size := r.pmem_delete_record.record_size }

/-- All old-data records a TryCleanAll pass scans: the global queues followed
by every worker cache's records, which the sweep drains unconditionally when
non-empty. -/
def queuedDataRecords (c : OldRecordsCleaner) : List OldDataRecord :=
  c.global_old_data_records.flatten ++
    (c.thread_cache.map fun tc => tc.old_data_records).flatten

/-- All old-delete records a TryCleanAll pass scans: the global queues
followed by exactly the worker-cache backlogs past the 10000000 high-water
mark. -/
def queuedDeleteRecords (c : OldRecordsCleaner) : List OldDeleteRecord :=
  c.global_old_delete_records.flatten ++
    (c.thread_cache.map fun tc =>
      if 10000000 < tc.old_delete_records.length then tc.old_delete_records
      else []).flatten

/-- Header record of the example collection (id 1). -/
def hdrRec : DLRecord :=
  { record_size := 64, timestamp := 1, record_type := RecordType.HashHeader,
    record_status := RecordStatus.Normal, prev := 0, next := 100,
    old_version := none, expire_time := 0, key := encodeID 1, value := encodeID 1 }

/-- An Outdated tombstone for sub-key `[97]` of collection 1. -/
def tombRec : DLRecord :=
  { record_size := 128, timestamp := 5, record_type := RecordType.HashElem,
    record_status := RecordStatus.Outdated, prev := 0, next := 0,
    old_version := none, expire_time := 0, key := encodeID 1 ++ [97], value := [] }

/-- A Normal record holding value `[42]` for sub-key `[97]` of collection 1. -/
def elemRec : DLRecord :=
  { record_size := 128, timestamp := 5, record_type := RecordType.HashElem,
    record_status := RecordStatus.Normal, prev := 0, next := 0,
    old_version := none, expire_time := 0, key := encodeID 1 ++ [97], value := [42] }

/-- Hash index entry of the example tombstone. -/
def tombEntry : HashEntry :=
  { record_type := RecordType.HashElem, record_status := RecordStatus.Outdated,
    dl_record := 100 }

/-- Hash index entry of the example live record. -/
def liveEntry : HashEntry :=
  { record_type := RecordType.HashElem, record_status := RecordStatus.Normal,
    dl_record := 100 }

/-- Example collection whose sub-key `[97]` currently resolves to a
tombstone: the hash index entry and the linked record are both Outdated. -/
def stTomb : HashListState :=
  { self_tag := 7, collection_id := 1, header_off := 0,
    store := [(0, hdrRec), (100, tombRec)],
    dl_order := [100],
    hash_index := [(encodeID 1 ++ [97], tombEntry)],
    size := 0 }

/-- Example collection whose sub-key `[97]` currently resolves to a live
Normal record. -/
def stLive : HashListState :=
  { self_tag := 7, collection_id := 1, header_off := 0,
    store := [(0, hdrRec), (100, elemRec)],
    dl_order := [100],
    hash_index := [(encodeID 1 ++ [97], liveEntry)],
    size := 1 }

/-- Example empty collection. -/
def stEmpty : HashListState :=
  { self_tag := 7, collection_id := 1, header_off := 0,
    store := [(0, hdrRec)], dl_order := [], hash_index := [], size := 0 }

/-- Example allocator granting offset 200 with the requested size. -/
def allocAt200 : Nat → SpaceEntry := fun n => { offset := 200, size := n }

/-- Example allocator whose every grant is zero-sized (exhausted arena). -/
def allocZero : Nat → SpaceEntry := fun _ => { offset := 0, size := 0 }

/-- The state of `stLive` after `Delete [97]` at timestamp 9 with
`allocAt200`: the tombstone written at offset 200 replaced the record at 100
in the list, the index entry is Outdated and the size dropped to 0. -/
def stLiveDel : HashListState :=
  { self_tag := 7, collection_id := 1, header_off := 0,
    store := [(0, hdrRec), (100, elemRec),
      (200, { record_size := 128, timestamp := 9,
              record_type := RecordType.HashElem,
              record_status := RecordStatus.Outdated, prev := 0, next := 0,
              old_version := some 100, expire_time := 0,
              key := encodeID 1 ++ [97], value := [] })],
    dl_order := [200],
    hash_index := [(encodeID 1 ++ [97],
      { record_type := RecordType.HashElem, record_status := RecordStatus.Outdated,
        dl_record := 200 })],
    size := 0 }

/-- Example cleaner state: one worker-cached data record (timestamp 2), one
global data record (timestamp 7), two global delete records (timestamps 3
and 9), and two pending batches (free timestamps 2 and 6). -/
def cleanerW : OldRecordsCleaner :=
  { thread_cache :=
      [⟨[⟨⟨DataEntryType.StringDataRecord, 64, 300⟩, 2⟩], []⟩],
    global_old_data_records :=
      [[⟨⟨DataEntryType.SortedDataRecord, 64, 400⟩, 7⟩]],
    global_old_delete_records :=
      [[⟨⟨DataEntryType.StringDeleteRecord, 64, 500⟩, 3, 0⟩,
        ⟨⟨DataEntryType.SortedDeleteRecord, 64, 600⟩, 9, 1⟩]],
    pending_free_space_entries :=
      [⟨[⟨700, 64⟩], 2⟩, ⟨[⟨800, 64⟩], 6⟩],
    last_clean_all_ts := 1 }

/-- Example engine state for the cleaner: hash cell 0 still points at the
tombstone at address 500, and the record at 600 is still spliced in its
sorted list. -/
def worldW : CleanerWorld := ⟨[(0, 500)], [600]⟩

/-- Observables of a Put outcome used by the C1 counterexample: the
`old_version` link of the record written at offset 200, and the resulting
list order. -/
def putObservables (p : WriteResult × HashListState × List Nat) :
    Option (Option Nat) × List Nat :=
  ((storeFind p.2.1.store 200).map fun r => r.old_version, p.2.1.dl_order)

/-- Write descriptor used by the C7 witness: a prepared Put of value `[50]`
over the tombstoned example collection. -/
def putArgsW : HashWriteArgs :=
  { key := [97], value := [50], op := WriteOp.Put, hlist := 7,
    space := { offset := 200, size := 128 }, ts := 9,
    lookup_result := { s := Status.Ok, entry := some tombEntry } }

/-- Record the C7 witness Put writes at offset 200. -/
def newElemW : DLRecord :=
  { record_size := 128, timestamp := 9, record_type := RecordType.HashElem,
    record_status := RecordStatus.Normal, prev := 0, next := 0,
    old_version := some 100, expire_time := 0,
    key := encodeID 1 ++ [97], value := [50] }

/-- WriteResult of the C7 witness Put. -/
def retW : WriteResult :=
  { s := Status.Ok, existing_record := some 100, write_record := some 200 }

/-- State after the C7 witness Put on `stTomb`. -/
def stTombPut : HashListState :=
  { self_tag := 7, collection_id := 1, header_off := 0,
    store := [(0, hdrRec), (100, tombRec), (200, newElemW)],
    dl_order := [200],
    hash_index := [(encodeID 1 ++ [97],
      { record_type := RecordType.HashElem, record_status := RecordStatus.Normal,
        dl_record := 200 })],
    size := 1 }

/-! Helper lemmas. -/

/-- Looking up the key just inserted in the hash index finds the new entry. -/
theorem idxFind_idxInsert_self (l : List (Bytes × HashEntry)) (k : Bytes) (e : HashEntry) :
    idxFind (idxInsert l k e) k = some e := by
  induction l with
  | nil => simp [idxInsert, idxFind]
  | cons p rest ih =>
    by_cases h : p.1 = k
    · simp [idxInsert, idxFind, h]
    · simp [idxInsert, idxFind, h, ih]

/-! C6. -/

/-- C6: for every HashWriteArgs bound to a different collection, PrepareWrite
and Write both return InvalidArgument and have no effect: PrepareWrite hands
back the args untouched (no lookup result stored) with an empty allocation
log, and Write returns the state unchanged with no record written. The
hypothesis `hv` is the source's entry assertion that a delete descriptor
carries an empty value. -/
theorem prepareWrite_write_reject_foreign_args
    (st : HashListState) (args : HashWriteArgs) (ts : Nat)
    (alloc : Nat → SpaceEntry) (rnd : Nat)
    (hv : args.op = WriteOp.Put ∨ args.value = [])
    (h : args.hlist ≠ st.self_tag) :
    HashList.PrepareWrite st args ts alloc = some (Status.InvalidArgument, args, []) ∧
    HashList.Write st args rnd =
      some ({ s := Status.InvalidArgument, existing_record := none,
              write_record := none }, st) := by
  constructor
  · unfold HashList.PrepareWrite
    rw [if_neg (by simp [hv]), if_pos h]
  · unfold HashList.Write
    rw [if_pos h]

/-- Witness for C6 at a concrete foreign-bound descriptor. -/
theorem prepareWrite_write_reject_foreign_args_witness :
    let args : HashWriteArgs :=
      { key := [97], value := [50], op := WriteOp.Put, hlist := 8 }
    (args.op = WriteOp.Put ∨ args.value = []) ∧ args.hlist ≠ stLive.self_tag ∧
    (HashList.PrepareWrite stLive args 9 allocAt200 =
        some (Status.InvalidArgument, args, []) ∧
      HashList.Write stLive args 0 =
        some ({ s := Status.InvalidArgument, existing_record := none,
                write_record := none }, stLive)) :=
  ⟨Or.inl rfl, by decide,
    prepareWrite_write_reject_foreign_args stLive _ 9 allocAt200 0 (Or.inl rfl) (by decide)⟩

/-! C10. -/

/-- C10: a Modify whose transformer returns Noop returns Ok without writing:
no record is constructed, no allocator request is issued (empty request log),
the returned write record is null and the whole collection state (list, hash
index and size) is unchanged. -/
theorem modify_noop_writes_nothing (st : HashListState) (key : Bytes)
    (modify_func : Option Bytes → ModifyOperation × Bytes) (ts : Nat)
    (alloc : Nat → SpaceEntry) (rnd : Nat) (er : Option Nat) (ev : Option Bytes)
    (hl : HashList.modifyLookupExisting st key = some (er, ev))
    (hf : (modify_func ev).1 = ModifyOperation.Noop) :
    HashList.Modify st key modify_func ts alloc rnd =
      some ({ s := Status.Ok, existing_record := er, write_record := none },
        st, []) := by
  unfold HashList.Modify
  rw [hl]
  unfold HashList.modifyDispatch
  simp only []
  rw [hf]

/-- Witness for C10: a Noop transformer on the live example collection. -/
theorem modify_noop_writes_nothing_witness :
    HashList.modifyLookupExisting stLive [97] = some (some 100, some [42]) ∧
    HashList.Modify stLive [97] (fun _ => (ModifyOperation.Noop, [])) 9 allocAt200 0 =
      some ({ s := Status.Ok, existing_record := some 100, write_record := none },
        stLive, []) :=
  ⟨by decide,
    modify_noop_writes_nothing stLive [97] (fun _ => (ModifyOperation.Noop, []))
      9 allocAt200 0 (some 100) (some [42]) (by decide) rfl⟩

/-! C5. -/

/-- C5: whenever the allocator only hands out zero-sized grants, a Put, a
Delete of a live key, and the Write and Delete branches of Modify all return
MemoryOverflow with no observable effect: no record is written (null write
record) and the collection state is returned unchanged; the request log shows
the single failed request. -/
theorem zero_grant_memory_overflow (st : HashListState) (key value : Bytes)
    (ts : Nat) (rnd : Nat) (alloc : Nat → SpaceEntry)
    (f g : Option Bytes → ModifyOperation × Bytes) :
    ((alloc (DLRecord.RecordSize (st.InternalKey key) value)).size = 0 →
      HashList.Put st key value ts alloc rnd =
        some ({ s := Status.MemoryOverflow, existing_record := none,
                write_record := none }, st,
          [DLRecord.RecordSize (st.InternalKey key) value])) ∧
    (∀ e, idxFind st.hash_index (st.InternalKey key) = some e →
      e.record_status = RecordStatus.Normal →
      (alloc (DLRecord.RecordSize (st.InternalKey key) [])).size = 0 →
      HashList.Delete st key ts alloc =
        some ({ s := Status.MemoryOverflow, existing_record := none,
                write_record := none }, st,
          [DLRecord.RecordSize (st.InternalKey key) []])) ∧
    (∀ er ev, HashList.modifyLookupExisting st key = some (er, ev) →
      (f ev).1 = ModifyOperation.Write →
      (alloc (DLRecord.RecordSize (st.InternalKey key) (f ev).2)).size = 0 →
      HashList.Modify st key f ts alloc rnd =
        some ({ s := Status.MemoryOverflow, existing_record := er,
                write_record := none }, st,
          [DLRecord.RecordSize (st.InternalKey key) (f ev).2])) ∧
    (∀ er ev, HashList.modifyLookupExisting st key = some (er, ev) →
      (g ev).1 = ModifyOperation.Delete →
      (alloc (DLRecord.RecordSize (st.InternalKey key) [])).size = 0 →
      HashList.Modify st key g ts alloc rnd =
        some ({ s := Status.MemoryOverflow, existing_record := er,
                write_record := none }, st,
          [DLRecord.RecordSize (st.InternalKey key) []])) := by
  refine ⟨?_, ?_, ?_, ?_⟩
  · intro hz
    unfold HashList.Put HashList.PrepareWrite HashList.InitWriteArgs
    cases hidx : idxFind st.hash_index (st.InternalKey key) with
    | none => simp [HashListState.lookup, hidx, hz]
    | some e => simp [HashListState.lookup, hidx, hz]
  · intro e he hnorm hz
    unfold HashList.Delete HashList.PrepareWrite HashList.InitWriteArgs
    simp [HashListState.lookup, he, hnorm, hz]
  · intro er ev hl hf hz
    unfold HashList.Modify
    rw [hl]
    unfold HashList.modifyDispatch
    simp only []
    rw [hf]
    simp [hz]
  · intro er ev hl hg hz
    unfold HashList.Modify
    rw [hl]
    unfold HashList.modifyDispatch
    simp only []
    rw [hg]
    simp [hz]

/-- Witness for C5 on the live example collection with an exhausted
allocator. -/
theorem zero_grant_memory_overflow_witness :
    (∀ n, (allocZero n).size = 0) ∧
    (HashList.Put stLive [97] [50] 9 allocZero 0 =
      some ({ s := Status.MemoryOverflow, existing_record := none,
              write_record := none }, stLive, [128])) ∧
    (HashList.Delete stLive [97] 9 allocZero =
      some ({ s := Status.MemoryOverflow, existing_record := none,
              write_record := none }, stLive, [128])) ∧
    (HashList.Modify stLive [97] (fun _ => (ModifyOperation.Write, [51])) 9 allocZero 0 =
      some ({ s := Status.MemoryOverflow, existing_record := some 100,
              write_record := none }, stLive, [128])) ∧
    (HashList.Modify stLive [97] (fun _ => (ModifyOperation.Delete, [])) 9 allocZero 0 =
      some ({ s := Status.MemoryOverflow, existing_record := some 100,
              write_record := none }, stLive, [128])) := by
  have h := zero_grant_memory_overflow stLive [97] [50] 9 0 allocZero
    (fun _ => (ModifyOperation.Write, [51])) (fun _ => (ModifyOperation.Delete, []))
  refine ⟨fun n => rfl, ?_, ?_, ?_, ?_⟩
  · have := h.1 rfl
    simpa using this
  · have := h.2.1 liveEntry (by decide) (by decide) rfl
    simpa using this
  · have := h.2.2.1 (some 100) (some [42]) (by decide) rfl rfl
    simpa using this
  · have := h.2.2.2 (some 100) (some [42]) (by decide) rfl rfl
    simpa using this

/-! C2. -/

/-- C2: Get returns NotFound when the index lookup misses or the entry is
Outdated; otherwise it dereferences the indexed record, re-checks that
record's own status, returns NotFound when the record itself has become
Outdated, and otherwise returns Ok with that record's value. -/
theorem get_index_then_record_status (st : HashListState) (key : Bytes) :
    (idxFind st.hash_index (st.InternalKey key) = none →
      HashList.Get st key = some (Status.NotFound, none)) ∧
    (∀ e, idxFind st.hash_index (st.InternalKey key) = some e →
      e.record_status = RecordStatus.Outdated →
      HashList.Get st key = some (Status.NotFound, none)) ∧
    (∀ e r, idxFind st.hash_index (st.InternalKey key) = some e →
      e.record_status = RecordStatus.Normal →
      storeFind st.store e.dl_record = some r →
      r.record_type = RecordType.HashElem →
      r.record_status = RecordStatus.Outdated →
      HashList.Get st key = some (Status.NotFound, none)) ∧
    (∀ e r, idxFind st.hash_index (st.InternalKey key) = some e →
      e.record_status = RecordStatus.Normal →
      storeFind st.store e.dl_record = some r →
      r.record_type = RecordType.HashElem →
      r.record_status = RecordStatus.Normal →
      HashList.Get st key = some (Status.Ok, some r.value)) := by
  refine ⟨?_, ?_, ?_, ?_⟩
  · intro h
    unfold HashList.Get
    simp [HashListState.lookup, h]
  · intro e he hst
    unfold HashList.Get
    simp [HashListState.lookup, he, hst]
  · intro e r he hest hr ht hst
    unfold HashList.Get
    simp [HashListState.lookup, he, hest, hr, ht, hst]
  · intro e r he hest hr ht hst
    unfold HashList.Get
    simp [HashListState.lookup, he, hest, hr, ht, hst]

/-- Witness for C2: the tombstoned and the live example collections. -/
theorem get_index_then_record_status_witness :
    HashList.Get stTomb [97] = some (Status.NotFound, none) ∧
    HashList.Get stLive [97] = some (Status.Ok, some [42]) := by
  constructor
  · exact (get_index_then_record_status stTomb [97]).2.1 tombEntry (by decide) (by decide)
  · exact (get_index_then_record_status stLive [97]).2.2.2 liveEntry elemRec (by decide)
      (by decide) (by decide) (by decide) (by decide)

/-! C3 and its supporting lemmas. -/

/-- A DLList update only touches the arena and the list order. -/
theorem dlUpdate_snd_fields (st : HashListState) (a : DLWriteArgs) (old_off : Nat) :
    ((dlUpdate st a old_off).2).hash_index = st.hash_index ∧
    ((dlUpdate st a old_off).2).self_tag = st.self_tag ∧
    ((dlUpdate st a old_off).2).collection_id = st.collection_id ∧
    ((dlUpdate st a old_off).2).size = st.size := by
  unfold dlUpdate
  split
  · cases storeFind st.store old_off <;> simp
  · simp

/-- UpdateSize only touches the size counter. -/
theorem updateSize_some_fields (st : HashListState) (delta : Int) (st2 : HashListState)
    (h : HashList.UpdateSize st delta = some st2) :
    st2.hash_index = st.hash_index ∧ st2.self_tag = st.self_tag ∧
    st2.collection_id = st.collection_id ∧ st2.store = st.store ∧
    st2.dl_order = st.dl_order := by
  unfold HashList.UpdateSize at h
  split at h
  · exact absurd h (by simp)
  · cases h
    simp

/-- When deletePrepared succeeds, the hash index now maps the internal key to
an Outdated entry for the tombstone written at the reserved space, and the
collection identity is untouched. -/
theorem deletePrepared_marks_index (st : HashListState) (lr : LookupResult)
    (key : Bytes) (ts : Nat) (space : SpaceEntry) (p : WriteResult × HashListState)
    (h : HashList.deletePrepared st lr key ts space = some p) :
    p.2.hash_index = idxInsert st.hash_index (st.InternalKey key)
      { record_type := RecordType.HashElem, record_status := RecordStatus.Outdated,
        dl_record := space.offset } ∧
    p.2.self_tag = st.self_tag ∧ p.2.collection_id = st.collection_id := by
  unfold HashList.deletePrepared at h
  cases he : lr.entry with
  | none => rw [he] at h; exact absurd h (by simp)
  | some e =>
    rw [he] at h
    simp only [] at h
    split at h
    · exact absurd h (by simp)
    split at h
    · exact absurd h (by simp)
    split at h
    · exact absurd h (by simp)
    split at h
    · exact absurd h (by simp)
    split at h
    · cases h
      have hf := dlUpdate_snd_fields st
        { key := st.InternalKey key, value := [],
          record_type := RecordType.HashElem,
          record_status := RecordStatus.Outdated, ts := ts, space := space }
        e.dl_record
      simp [hf.1, hf.2.1, hf.2.2.1]
    · exact absurd h (by simp)

/-- A successful Write of a Delete descriptor leaves the hash index pointing
the internal key at an Outdated tombstone entry, preserving the collection
identity. -/
theorem write_delete_marks_index (st : HashListState) (args : HashWriteArgs)
    (rnd : Nat) (ret : WriteResult) (st1 : HashListState)
    (hop : args.op = WriteOp.Delete) (hl : args.hlist = st.self_tag)
    (hw : HashList.Write st args rnd = some (ret, st1)) :
    idxFind st1.hash_index (st.InternalKey args.key) = some
      { record_type := RecordType.HashElem, record_status := RecordStatus.Outdated,
        dl_record := args.space.offset } ∧
    st1.self_tag = st.self_tag ∧ st1.collection_id = st.collection_id := by
  unfold HashList.Write at hw
  rw [if_neg (by simp [hl]), if_neg (by rw [hop]; decide)] at hw
  cases hdp : HashList.deletePrepared st args.lookup_result args.key args.ts args.space with
  | none => rw [hdp] at hw; exact absurd hw (by simp)
  | some p =>
    rw [hdp] at hw
    have hfix := deletePrepared_marks_index st args.lookup_result args.key args.ts
      args.space p hdp
    have hfind : idxFind p.2.hash_index (st.InternalKey args.key) = some
        { record_type := RecordType.HashElem, record_status := RecordStatus.Outdated,
          dl_record := args.space.offset } := by
      rw [hfix.1]; exact idxFind_idxInsert_self _ _ _
    simp only [Option.some_bind] at hw
    split at hw
    · cases hw
      exact ⟨hfind, hfix.2.1, hfix.2.2⟩
    · split at hw
      · exact absurd hw (by simp)
      · split at hw
        · cases hus : HashList.UpdateSize p.2 (-1) with
          | none => rw [hus] at hw; exact absurd hw (by simp)
          | some st2 =>
            rw [hus] at hw
            simp only [Option.map_some'] at hw
            cases hw
            have hu := updateSize_some_fields p.2 (-1) _ hus
            exact ⟨by rw [hu.1]; exact hfind, by rw [hu.2.1]; exact hfix.2.1,
              by rw [hu.2.2.1]; exact hfix.2.2⟩
        · cases hw
          exact ⟨hfind, hfix.2.1, hfix.2.2⟩

/-- PrepareWrite fills in timestamp, lookup result and space but never alters
the descriptor's key, value, operation or collection binding. -/
theorem prepareWrite_args_fields (st : HashListState) (args : HashWriteArgs)
    (ts : Nat) (alloc : Nat → SpaceEntry) (r : Status × HashWriteArgs × List Nat)
    (h : HashList.PrepareWrite st args ts alloc = some r) :
    r.2.1.op = args.op ∧ r.2.1.key = args.key ∧ r.2.1.value = args.value ∧
    r.2.1.hlist = args.hlist := by
  unfold HashList.PrepareWrite at h
  split at h
  · exact absurd h (by simp)
  · split at h
    · cases h; simp
    · simp only [] at h
      split at h
      · split at h
        · split at h
          · split at h
            · cases h; simp
            · cases h; simp
          · cases h; simp
        · exact absurd h (by simp)
      · split at h
        · split at h
          · cases h; simp
          · cases h; simp
        · cases h; simp
      · cases h; simp
      · exact absurd h (by simp)

/-- Delete on an absent key or a tombstone is a no-op: PrepareWrite reserves
nothing, Write never runs, and Delete returns Ok with everything unchanged. -/
theorem delete_noop_of_dead_entry (st : HashListState) (key : Bytes) (ts : Nat)
    (alloc : Nat → SpaceEntry)
    (h : idxFind st.hash_index (st.InternalKey key) = none ∨
      ∃ e, idxFind st.hash_index (st.InternalKey key) = some e ∧
        e.record_status = RecordStatus.Outdated) :
    HashList.Delete st key ts alloc =
      some ({ s := Status.Ok, existing_record := none, write_record := none },
        st, []) := by
  unfold HashList.Delete HashList.PrepareWrite HashList.InitWriteArgs
  rcases h with h | ⟨e, he, hst⟩
  · simp [HashListState.lookup, h]
  · simp [HashListState.lookup, he, hst]

/-- A delete whose PrepareWrite succeeded without reserving space found a
tombstone or nothing in the index. -/
theorem prepareWrite_delete_nospace_dead (st : HashListState) (key : Bytes)
    (ts : Nat) (alloc : Nat → SpaceEntry) (r : Status × HashWriteArgs × List Nat)
    (h : HashList.PrepareWrite st (HashList.InitWriteArgs st key [] WriteOp.Delete)
      ts alloc = some r)
    (hok : r.1 = Status.Ok) (hsz : ¬ 0 < r.2.1.space.size) :
    idxFind st.hash_index (st.InternalKey key) = none ∨
    ∃ e, idxFind st.hash_index (st.InternalKey key) = some e ∧
      e.record_status = RecordStatus.Outdated := by
  cases hidx : idxFind st.hash_index (st.InternalKey key) with
  | none => exact Or.inl rfl
  | some e =>
    cases hes : e.record_status with
    | Outdated => exact Or.inr ⟨e, rfl, hes⟩
    | Normal =>
      unfold HashList.PrepareWrite HashList.InitWriteArgs at h
      simp only [HashListState.lookup, hidx, hes] at h
      simp at h
      split at h
      · cases h
        simp at hok
      · rename_i hne
        cases h
        simp at hsz
        exact absurd hsz hne

/-- C3: deleting a key whose index entry is a tombstone (Outdated) or absent
is a no-op: no space is allocated, Ok is returned with nothing written, and
the state (list, hash index, size) is unchanged; moreover, after any
successful Delete, a second Delete at a later timestamp is exactly such a
no-op. -/
theorem delete_dead_key_noop (st : HashListState) (key : Bytes) (ts ts' : Nat)
    (alloc alloc' : Nat → SpaceEntry) :
    ((idxFind st.hash_index (st.InternalKey key) = none ∨
      ∃ e, idxFind st.hash_index (st.InternalKey key) = some e ∧
        e.record_status = RecordStatus.Outdated) →
      HashList.Delete st key ts alloc =
        some ({ s := Status.Ok, existing_record := none, write_record := none },
          st, [])) ∧
    (∀ ret st1 log, HashList.Delete st key ts alloc = some (ret, st1, log) →
      ret.s = Status.Ok → ts < ts' →
      HashList.Delete st1 key ts' alloc' =
        some ({ s := Status.Ok, existing_record := none, write_record := none },
          st1, [])) := by
  constructor
  · exact delete_noop_of_dead_entry st key ts alloc
  · intro ret st1 log hdel hok hts
    unfold HashList.Delete at hdel
    simp only [] at hdel
    cases hpw : HashList.PrepareWrite st
        (HashList.InitWriteArgs st key [] WriteOp.Delete) ts alloc with
    | none => rw [hpw] at hdel; exact absurd hdel (by simp)
    | some r =>
      rw [hpw] at hdel
      simp only [Option.some_bind] at hdel
      split at hdel
      · rename_i hcond
        cases hwr : HashList.Write st r.2.1 0 with
        | none => rw [hwr] at hdel; exact absurd hdel (by simp)
        | some p =>
          rw [hwr] at hdel
          simp only [Option.map_some'] at hdel
          cases hdel
          have hargs := prepareWrite_args_fields st _ ts alloc r hpw
          have hmark := write_delete_marks_index st r.2.1 0 p.1 p.2
            (by rw [hargs.1]; rfl) (by rw [hargs.2.2.2]; rfl) (by rw [hwr])
          apply delete_noop_of_dead_entry
          right
          have hkey : p.2.InternalKey key = st.InternalKey key := by
            unfold HashListState.InternalKey
            rw [hmark.2.2]
          rw [hargs.2.1] at hmark
          exact ⟨{ record_type := RecordType.HashElem,
                   record_status := RecordStatus.Outdated,
                   dl_record := r.2.1.space.offset },
            by rw [hkey]; exact hmark.1, rfl⟩
      · rename_i hcond
        cases hdel
        have hok1 : r.1 = Status.Ok := hok
        have hsz : ¬ 0 < r.2.1.space.size := fun hpos => hcond ⟨hok1, hpos⟩
        exact delete_noop_of_dead_entry st key ts' alloc'
          (prepareWrite_delete_nospace_dead st key ts alloc r hpw hok1 hsz)

/-- Witness for C3: deleting sub-key `[97]` of the live example collection
tombstones it; a repeat Delete and a Delete on the already-tombstoned
collection are no-ops. -/
theorem delete_dead_key_noop_witness :
    HashList.Delete stLive [97] 9 allocAt200 =
      some ({ s := Status.Ok, existing_record := some 100, write_record := some 200 },
        stLiveDel, [128]) ∧
    HashList.Delete stLiveDel [97] 10 allocAt200 =
      some ({ s := Status.Ok, existing_record := none, write_record := none },
        stLiveDel, []) ∧
    HashList.Delete stTomb [97] 9 allocAt200 =
      some ({ s := Status.Ok, existing_record := none, write_record := none },
        stTomb, []) := by
  refine ⟨by decide, ?_, ?_⟩
  · exact (delete_dead_key_noop stLive [97] 9 10 allocAt200 allocAt200).2
      { s := Status.Ok, existing_record := some 100, write_record := some 200 }
      stLiveDel [128] (by decide) (by decide) (by decide)
  · exact (delete_dead_key_noop stTomb [97] 9 10 allocAt200 allocAt200).1
      (Or.inr ⟨tombEntry, by decide, by decide⟩)

/-! C7 and its supporting lemmas. -/

/-- Incrementing the size counter never trips the non-negativity assertion. -/
theorem updateSize_pos (st : HashListState) :
    HashList.UpdateSize st 1 = some { st with size := st.size + 1 } := by
  unfold HashList.UpdateSize
  rw [if_neg (by simp)]
  have h : ((st.size : Int) + 1).toNat = st.size + 1 := by omega
  rw [h]

/-- Decrementing a positive size counter succeeds and subtracts one. -/
theorem updateSize_neg (st : HashListState) (h : 0 < st.size) :
    HashList.UpdateSize st (-1) = some { st with size := st.size - 1 } := by
  unfold HashList.UpdateSize
  rw [if_neg (by omega)]
  have h2 : ((st.size : Int) + (-1)).toNat = st.size - 1 := by omega
  rw [h2]

/-- Decrementing a zero size counter trips the assertion. -/
theorem updateSize_neg_zero (st : HashListState) (h : st.size = 0) :
    HashList.UpdateSize st (-1) = none := by
  unfold HashList.UpdateSize
  rw [if_pos (by omega)]

/-- putPrepared does not touch the size counter. -/
theorem putPrepared_size (st : HashListState) (lr : LookupResult) (key value : Bytes)
    (ts : Nat) (space : SpaceEntry) (rnd : Nat) (p : WriteResult × HashListState)
    (h : HashList.putPrepared st lr key value ts space rnd = some p) :
    p.2.size = st.size := by
  unfold HashList.putPrepared at h
  simp only [] at h
  rw [Option.map_eq_some'] at h
  obtain ⟨q, hq, hpq⟩ := h
  have hsz : p.2.size = q.2.size := by rw [← hpq]
  rw [hsz]
  split at hq
  · split at hq
    · exact absurd hq (by simp)
    · split at hq
      · exact absurd hq (by simp)
      · split at hq
        · exact absurd hq (by simp)
        · split at hq
          · cases hq
            exact (dlUpdate_snd_fields _ _ _).2.2.2
          · exact absurd hq (by simp)
  · split at hq
    · split at hq
      · cases hq
        simp [dlPushBack]
      · cases hq
        simp [dlPushFront]
    · exact absurd hq (by simp)

/-- deletePrepared does not touch the size counter. -/
theorem deletePrepared_size (st : HashListState) (lr : LookupResult) (key : Bytes)
    (ts : Nat) (space : SpaceEntry) (p : WriteResult × HashListState)
    (h : HashList.deletePrepared st lr key ts space = some p) :
    p.2.size = st.size := by
  unfold HashList.deletePrepared at h
  cases he : lr.entry with
  | none => rw [he] at h; exact absurd h (by simp)
  | some e =>
    rw [he] at h
    simp only [] at h
    split at h
    · exact absurd h (by simp)
    split at h
    · exact absurd h (by simp)
    split at h
    · exact absurd h (by simp)
    split at h
    · exact absurd h (by simp)
    split at h
    · cases h
      exact (dlUpdate_snd_fields _ _ _).2.2.2
    · exact absurd h (by simp)

/-- Packaging of the three size-delta facts from a branch analysis. -/
theorem size_delta_cases (a b : Nat) (P D : Prop)
    (h : (b = a + 1 ∧ P ∧ ¬D) ∨ (a = b + 1 ∧ D ∧ ¬P) ∨ (b = a ∧ ¬P ∧ ¬D)) :
    (b = a + 1 ↔ P) ∧ (a = b + 1 ↔ D) ∧ (b = a ∨ b = a + 1 ∨ a = b + 1) := by
  rcases h with ⟨h1, hp, hnd⟩ | ⟨h1, hd, hnp⟩ | ⟨h1, hnp, hnd⟩
  · exact ⟨⟨fun _ => hp, fun _ => h1⟩,
      ⟨fun hx => absurd hx (by omega), fun hx => absurd hx hnd⟩,
      Or.inr (Or.inl h1)⟩
  · exact ⟨⟨fun hx => absurd hx (by omega), fun hx => absurd hx hnp⟩,
      ⟨fun _ => hd, fun _ => h1⟩, Or.inr (Or.inr h1)⟩
  · exact ⟨⟨fun hx => absurd hx (by omega), fun hx => absurd hx hnp⟩,
      ⟨fun hx => absurd hx (by omega), fun hx => absurd hx hnd⟩, Or.inl h1⟩

/-- C7: a Write moves the size counter by at most one, incrementing exactly
when the operation is a Put whose existing record was absent or Outdated, and
decrementing exactly when it is a Delete whose existing record was Normal. -/
theorem write_size_delta (st : HashListState) (args : HashWriteArgs) (rnd : Nat)
    (ret : WriteResult) (st1 : HashListState)
    (hl : args.hlist = st.self_tag)
    (hw : HashList.Write st args rnd = some (ret, st1)) :
    (st1.size = st.size + 1 ↔
      args.op = WriteOp.Put ∧ (ret.existing_record = none ∨
        ∃ off r, ret.existing_record = some off ∧
          storeFind st1.store off = some r ∧
          r.record_status = RecordStatus.Outdated)) ∧
    (st.size = st1.size + 1 ↔
      args.op = WriteOp.Delete ∧
        ∃ off r, ret.existing_record = some off ∧
          storeFind st1.store off = some r ∧
          r.record_status = RecordStatus.Normal) ∧
    (st1.size = st.size ∨ st1.size = st.size + 1 ∨ st.size = st1.size + 1) := by
  unfold HashList.Write at hw
  rw [if_neg (by simp [hl])] at hw
  by_cases hop : args.op = WriteOp.Put
  · rw [if_pos hop] at hw
    cases hpp : HashList.putPrepared st args.lookup_result args.key args.value
        args.ts args.space rnd with
    | none => rw [hpp] at hw; exact absurd hw (by simp)
    | some p =>
      rw [hpp] at hw
      simp only [Option.some_bind] at hw
      have hq := putPrepared_size st args.lookup_result args.key args.value
        args.ts args.space rnd p hpp
      split at hw
      · rename_i heq
        rw [updateSize_pos p.2] at hw
        simp only [Option.map_some'] at hw
        cases hw
        apply size_delta_cases
        exact Or.inl ⟨by simp [hq], ⟨hop, Or.inl heq⟩,
          fun hd => by rw [hop] at hd; exact absurd hd.1 (by decide)⟩
      · rename_i off heq
        split at hw
        · exact absurd hw (by simp)
        · rename_i r hsf
          split at hw
          · rename_i hout
            rw [updateSize_pos p.2] at hw
            simp only [Option.map_some'] at hw
            cases hw
            apply size_delta_cases
            refine Or.inl ⟨by simp [hq], ⟨hop, Or.inr ⟨off, r, heq, by simpa using hsf, hout⟩⟩,
              fun hd => by rw [hop] at hd; exact absurd hd.1 (by decide)⟩
          · rename_i hnorm
            cases hw
            apply size_delta_cases
            refine Or.inr (Or.inr ⟨hq, ?_, fun hd => by rw [hop] at hd; exact absurd hd.1 (by decide)⟩)
            rintro ⟨_, hor⟩
            rcases hor with habs | ⟨off2, r2, heq2, hsf2, hout2⟩
            · rw [heq] at habs; exact absurd habs (by simp)
            · rw [heq] at heq2
              cases heq2
              rw [hsf] at hsf2
              cases hsf2
              exact hnorm hout2
  · rw [if_neg hop] at hw
    cases hdp : HashList.deletePrepared st args.lookup_result args.key args.ts
        args.space with
    | none => rw [hdp] at hw; exact absurd hw (by simp)
    | some p =>
      rw [hdp] at hw
      simp only [Option.some_bind] at hw
      have hq := deletePrepared_size st args.lookup_result args.key args.ts
        args.space p hdp
      split at hw
      · rename_i heq
        cases hw
        apply size_delta_cases
        refine Or.inr (Or.inr ⟨hq, fun hp => hop hp.1, ?_⟩)
        rintro ⟨_, off2, r2, heq2, _, _⟩
        rw [heq] at heq2
        exact absurd heq2 (by simp)
      · rename_i off heq
        split at hw
        · exact absurd hw (by simp)
        · rename_i r hsf
          split at hw
          · rename_i hnorm
            by_cases h0 : p.2.size = 0
            · rw [updateSize_neg_zero p.2 h0] at hw
              exact absurd hw (by simp)
            · rw [updateSize_neg p.2 (by omega)] at hw
              simp only [Option.map_some'] at hw
              cases hw
              apply size_delta_cases
              refine Or.inr (Or.inl ⟨by simp; omega, ?_, fun hp => hop hp.1⟩)
              have hopd : args.op = WriteOp.Delete := by
                cases hargsop : args.op with
                | Put => exact absurd hargsop hop
                | Delete => rfl
              exact ⟨hopd, off, r, heq, by simpa using hsf, hnorm⟩
          · rename_i hnout
            cases hw
            apply size_delta_cases
            refine Or.inr (Or.inr ⟨hq, fun hp => hop hp.1, ?_⟩)
            rintro ⟨_, off2, r2, heq2, hsf2, hnorm2⟩
            rw [heq] at heq2
            cases heq2
            rw [hsf] at hsf2
            cases hsf2
            exact hnout hnorm2

/-- Witness for C7: the Put that revives the tombstoned example collection
increments the size counter by one. -/
theorem write_size_delta_witness :
    (putArgsW.hlist = stTomb.self_tag ∧
      HashList.Write stTomb putArgsW 0 = some (retW, stTombPut)) ∧
    ((stTombPut.size = stTomb.size + 1 ↔
        putArgsW.op = WriteOp.Put ∧ (retW.existing_record = none ∨
          ∃ off r, retW.existing_record = some off ∧
            storeFind stTombPut.store off = some r ∧
            r.record_status = RecordStatus.Outdated)) ∧
      (stTomb.size = stTombPut.size + 1 ↔
        putArgsW.op = WriteOp.Delete ∧
          ∃ off r, retW.existing_record = some off ∧
            storeFind stTombPut.store off = some r ∧
            r.record_status = RecordStatus.Normal) ∧
      (stTombPut.size = stTomb.size ∨ stTombPut.size = stTomb.size + 1 ∨
        stTomb.size = stTombPut.size + 1)) :=
  ⟨⟨by decide, by decide⟩,
    write_size_delta stTomb putArgsW 0 retW stTombPut (by decide) (by decide)⟩

/-! C1: counterexample, supporting lemmas, amended theorem. -/

/-- C1 counterexample: sub-key `[97]` of `stTomb` resolves to an existing
Outdated index entry, yet Put does not splice the new record next to the
header via PushFront or PushBack: for both outcomes of the random draw, the
record written at offset 200 carries `old_version = some 100` — the
`DLList::Update` in-place replacement link — and the list order is `[200]`,
the tombstone at offset 100 having been unlinked. A pushed record would carry
no `old_version` link and would leave the existing record linked. -/
theorem put_on_outdated_entry_updates_in_place :
    idxFind stTomb.hash_index (stTomb.InternalKey [97]) = some tombEntry ∧
    tombEntry.record_status = RecordStatus.Outdated ∧
    (HashList.Put stTomb [97] [50] 9 allocAt200 0).map putObservables =
      some (some (some 100), [200]) ∧
    (HashList.Put stTomb [97] [50] 9 allocAt200 1).map putObservables =
      some (some (some 100), [200]) :=
  ⟨by decide, by decide, by decide, by decide⟩

/-- Looking up the offset just written to the arena finds the new record. -/
theorem storeFind_storePut_self (l : List (Nat × DLRecord)) (k : Nat) (v : DLRecord) :
    storeFind (storePut l k v) k = some v := by
  induction l with
  | nil => simp [storePut, storeFind]
  | cons p rest ih =>
    by_cases h : p.1 = k
    · simp [storePut, storeFind, h]
    · simp [storePut, storeFind, h, ih]

/-- Looking up any other offset is unaffected by a store write. -/
theorem storeFind_storePut_ne (l : List (Nat × DLRecord)) (k q : Nat) (v : DLRecord)
    (h : q ≠ k) :
    storeFind (storePut l k v) q = storeFind l q := by
  induction l with
  | nil => simp [storePut, storeFind, Ne.symm h]
  | cons p rest ih =>
    obtain ⟨a, b⟩ := p
    by_cases hp : a = k
    · subst hp
      simp [storePut, storeFind, Ne.symm h]
    · simp [storePut, storeFind, hp, ih]

/-- When the lookup found an entry — whatever its cached status — putPrepared
replaces the pointed-to record in place via the modelled DLList::Update: the
new record inherits the old record's neighbours, links `old_version` to it,
and takes its place in the list order; the index is repointed at it. -/
theorem putPrepared_update (st : HashListState) (lr : LookupResult)
    (key value : Bytes) (ts : Nat) (space : SpaceEntry) (rnd : Nat)
    (e : HashEntry) (exrec : DLRecord)
    (hs : lr.s = Status.Ok) (hent : lr.entry = some e)
    (hsf : storeFind st.store e.dl_record = some exrec)
    (hts : exrec.timestamp < ts) (hlink : e.dl_record ∈ st.dl_order) :
    HashList.putPrepared st lr key value ts space rnd = some
      ({ s := Status.Ok, existing_record := some e.dl_record,
         write_record := some space.offset },
       { st with
          store := storePut st.store space.offset
            { record_size := space.size, timestamp := ts,
              record_type := RecordType.HashElem,
              record_status := RecordStatus.Normal, prev := exrec.prev,
              next := exrec.next, old_version := some e.dl_record,
              expire_time := 0, key := st.InternalKey key, value := value },
          dl_order := listSubst st.dl_order e.dl_record space.offset,
          hash_index := idxInsert st.hash_index (st.InternalKey key)
            { record_type := RecordType.HashElem,
              record_status := RecordStatus.Normal, dl_record := space.offset } }) := by
  have hle : ¬ ts ≤ exrec.timestamp := by omega
  unfold HashList.putPrepared dlUpdate
  simp [hs, hent, hsf, hlink, hle]

/-- When the lookup found nothing, putPrepared pushes a fresh record with no
`old_version` link next to the header, the side chosen by the random draw. -/
theorem putPrepared_push (st : HashListState) (lr : LookupResult)
    (key value : Bytes) (ts : Nat) (space : SpaceEntry) (rnd : Nat)
    (hs : lr.s = Status.NotFound) :
    HashList.putPrepared st lr key value ts space rnd = some
      ({ s := Status.Ok, existing_record := none,
         write_record := some space.offset },
       let dargs : DLWriteArgs :=
         { key := st.InternalKey key, value := value,
           record_type := RecordType.HashElem,
           record_status := RecordStatus.Normal, ts := ts, space := space }
       let pushed := if rnd % 2 == 0 then dlPushBack st dargs else dlPushFront st dargs
       let new_entry : HashEntry :=
         { record_type := RecordType.HashElem,
           record_status := RecordStatus.Normal, dl_record := space.offset }
       { pushed.2 with
           hash_index := idxInsert pushed.2.hash_index (st.InternalKey key) new_entry }) := by
  have hno : lr.s ≠ Status.Ok := by rw [hs]; decide
  unfold HashList.putPrepared
  by_cases hb : (rnd % 2 == 0 : Bool) <;>
    simp [hs, hno, hb, dlPushBack, dlPushFront]

/-- C1 (amended): for every prepared Put descriptor, if the index lookup
found an existing entry — whether its status was Normal or Outdated — Write
replaces the existing record in place via DLList.Update and links the new
record's `old_version` to it; only when the lookup found nothing is the new
record spliced next to the header, PushBack on an even random draw and
PushFront on an odd one. -/
theorem write_put_update_on_existing_push_on_absent
    (st : HashListState) (args : HashWriteArgs) (rnd : Nat)
    (hl : args.hlist = st.self_tag) (hop : args.op = WriteOp.Put) :
    (∀ e exrec, args.lookup_result = { s := Status.Ok, entry := some e } →
      storeFind st.store e.dl_record = some exrec →
      exrec.timestamp < args.ts → e.dl_record ∈ st.dl_order →
      ∃ st1, HashList.Write st args rnd = some
          ({ s := Status.Ok, existing_record := some e.dl_record,
             write_record := some args.space.offset }, st1) ∧
        storeFind st1.store args.space.offset = some
          { record_size := args.space.size, timestamp := args.ts,
            record_type := RecordType.HashElem,
            record_status := RecordStatus.Normal, prev := exrec.prev,
            next := exrec.next, old_version := some e.dl_record,
            expire_time := 0, key := st.InternalKey args.key, value := args.value } ∧
        st1.dl_order = listSubst st.dl_order e.dl_record args.space.offset) ∧
    (args.lookup_result.s = Status.NotFound →
      ∃ st1, HashList.Write st args rnd = some
          ({ s := Status.Ok, existing_record := none,
             write_record := some args.space.offset }, st1) ∧
        (storeFind st1.store args.space.offset).map (fun r => r.old_version) =
          some none ∧
        st1.dl_order = (if rnd % 2 = 0 then st.dl_order ++ [args.space.offset]
          else args.space.offset :: st.dl_order)) := by
  constructor
  · intro e exrec hlr hsf hts hlink
    unfold HashList.Write
    rw [if_neg (by simp [hl]), if_pos hop]
    rw [putPrepared_update st args.lookup_result args.key args.value args.ts
      args.space rnd e exrec (by rw [hlr]) (by rw [hlr]) hsf hts hlink]
    simp only [Option.some_bind]
    by_cases hoff : e.dl_record = args.space.offset
    · rw [hoff, storeFind_storePut_self]
      simp only []
      rw [if_neg (by simp)]
      exact ⟨_, rfl, storeFind_storePut_self _ _ _, rfl⟩
    · cases hst : exrec.record_status with
      | Outdated =>
        rw [storeFind_storePut_ne _ _ _ _ hoff, hsf]
        simp only []
        rw [if_pos hst, updateSize_pos]
        simp only [Option.map_some']
        exact ⟨_, rfl, storeFind_storePut_self _ _ _, rfl⟩
      | Normal =>
        rw [storeFind_storePut_ne _ _ _ _ hoff, hsf]
        simp only []
        rw [if_neg (by rw [hst]; decide)]
        exact ⟨_, rfl, storeFind_storePut_self _ _ _, rfl⟩
  · intro hnf
    unfold HashList.Write
    rw [if_neg (by simp [hl]), if_pos hop]
    rw [putPrepared_push st args.lookup_result args.key args.value args.ts
      args.space rnd hnf]
    simp only [Option.some_bind]
    rw [updateSize_pos]
    simp only [Option.map_some']
    by_cases hb : rnd % 2 = 0
    · have hbb : (rnd % 2 == 0 : Bool) = true := by simp [hb]
      refine ⟨_, rfl, ?_, ?_⟩
      · simp [hbb, dlPushBack, storeFind_storePut_self]
      · simp [hbb, dlPushBack, hb]
    · have hbb : (rnd % 2 == 0 : Bool) = false := by simp [hb]
      refine ⟨_, rfl, ?_, ?_⟩
      · simp [hbb, dlPushFront, storeFind_storePut_self]
      · simp [hbb, dlPushFront, hb]

/-- Witness for the amended C1: the theorem applied to the prepared Put over
the tombstoned example collection, whose existing entry is Outdated. -/
theorem write_put_update_witness :
    (putArgsW.hlist = stTomb.self_tag ∧ putArgsW.op = WriteOp.Put ∧
      putArgsW.lookup_result = { s := Status.Ok, entry := some tombEntry } ∧
      storeFind stTomb.store tombEntry.dl_record = some tombRec ∧
      tombRec.timestamp < putArgsW.ts ∧ tombEntry.dl_record ∈ stTomb.dl_order) ∧
    (∃ st1, HashList.Write stTomb putArgsW 0 = some
        ({ s := Status.Ok, existing_record := some tombEntry.dl_record,
           write_record := some putArgsW.space.offset }, st1) ∧
      storeFind st1.store putArgsW.space.offset = some
        { record_size := putArgsW.space.size, timestamp := putArgsW.ts,
          record_type := RecordType.HashElem,
          record_status := RecordStatus.Normal, prev := tombRec.prev,
          next := tombRec.next, old_version := some tombEntry.dl_record,
          expire_time := 0, key := stTomb.InternalKey putArgsW.key,
          value := putArgsW.value } ∧
      st1.dl_order = listSubst stTomb.dl_order tombEntry.dl_record
        putArgsW.space.offset) :=
  ⟨⟨by decide, by decide, by decide, by decide, by decide, by decide⟩,
    (write_put_update_on_existing_push_on_absent stTomb putArgsW 0
        (by decide) (by decide)).1 tombEntry tombRec (by decide) (by decide)
        (by decide) (by decide)⟩

/-! C8. -/

/-- C8: SetExpireTime constructs a new HashHeader record carrying the old
header's key and value, the given timestamp and expire time, with
`old_version` pointing at the old header's offset; it replaces the old
header in the list via Replace and returns Ok with the old header as the
existing record and the new record as the write record. A zero-sized grant
returns MemoryOverflow with everything unchanged. -/
theorem setExpireTime_rewrites_header (st : HashListState) (expired_time : Int)
    (timestamp : Nat) (alloc : Nat → SpaceEntry) (header : DLRecord)
    (hh : storeFind st.store st.header_off = some header) :
    ((alloc (DLRecord.RecordSize header.key header.value)).size = 0 →
      HashList.SetExpireTime st expired_time timestamp alloc =
        some ({ s := Status.MemoryOverflow, existing_record := none,
                write_record := none }, st,
          [DLRecord.RecordSize header.key header.value])) ∧
    (0 < (alloc (DLRecord.RecordSize header.key header.value)).size →
      HashList.SetExpireTime st expired_time timestamp alloc =
        some ({ s := Status.Ok, existing_record := some st.header_off,
                write_record :=
                  some (alloc (DLRecord.RecordSize header.key header.value)).offset },
          { st with
              store := storePut st.store
                (alloc (DLRecord.RecordSize header.key header.value)).offset
                { record_size :=
                    (alloc (DLRecord.RecordSize header.key header.value)).size,
                  timestamp := timestamp, record_type := RecordType.HashHeader,
                  record_status := RecordStatus.Normal, prev := header.prev,
                  next := header.next, old_version := some st.header_off,
                  expire_time := expired_time, key := header.key,
                  value := header.value },
              header_off :=
                (alloc (DLRecord.RecordSize header.key header.value)).offset },
          [DLRecord.RecordSize header.key header.value])) := by
  constructor
  · intro hz
    unfold HashList.SetExpireTime
    rw [hh]
    simp only []
    rw [if_pos hz]
  · intro hpos
    unfold HashList.SetExpireTime
    rw [hh]
    simp only []
    rw [if_neg (by omega)]
    unfold dlReplace constructDLRecord
    simp

/-- Witness for C8: expiring the empty example collection at time 42, once
with a working allocator and once with an exhausted one. -/
theorem setExpireTime_rewrites_header_witness :
    HashList.SetExpireTime stEmpty 42 9 allocAt200 =
      some ({ s := Status.Ok, existing_record := some stEmpty.header_off,
              write_record :=
                some (allocAt200 (DLRecord.RecordSize hdrRec.key hdrRec.value)).offset },
        { stEmpty with
            store := storePut stEmpty.store
              (allocAt200 (DLRecord.RecordSize hdrRec.key hdrRec.value)).offset
              { record_size :=
                  (allocAt200 (DLRecord.RecordSize hdrRec.key hdrRec.value)).size,
                timestamp := 9, record_type := RecordType.HashHeader,
                record_status := RecordStatus.Normal, prev := hdrRec.prev,
                next := hdrRec.next, old_version := some stEmpty.header_off,
                expire_time := 42, key := hdrRec.key, value := hdrRec.value },
            header_off :=
              (allocAt200 (DLRecord.RecordSize hdrRec.key hdrRec.value)).offset },
        [DLRecord.RecordSize hdrRec.key hdrRec.value]) ∧
    HashList.SetExpireTime stEmpty 42 9 allocZero =
      some ({ s := Status.MemoryOverflow, existing_record := none,
              write_record := none }, stEmpty,
        [DLRecord.RecordSize hdrRec.key hdrRec.value]) :=
  ⟨(setExpireTime_rewrites_header stEmpty 42 9 allocAt200 hdrRec (by decide)).2
      (by decide),
    (setExpireTime_rewrites_header stEmpty 42 9 allocZero hdrRec (by decide)).1
      (by decide)⟩

/-! C9. -/

/-- C9: records of unexpected type are crash-stop: the cleaner's
purgeOldDataRecord and purgeOldDeleteRecord and HashList's FetchID produce
no value (the source calls `std::abort()`, respectively logs and asserts)
rather than continue. -/
theorem unknown_record_type_crash_stop (d1 d2 : DataEntry) (n1 n2 cell : Nat)
    (w : CleanerWorld) (r : DLRecord)
    (h1 : d1.etype ≠ DataEntryType.StringDataRecord ∧
      d1.etype ≠ DataEntryType.SortedDataRecord)
    (h2 : d2.etype ≠ DataEntryType.StringDeleteRecord ∧
      d2.etype ≠ DataEntryType.SortedDeleteRecord)
    (h3 : r.record_type ≠ RecordType.HashElem ∧
      r.record_type ≠ RecordType.HashHeader) :
    OldRecordsCleaner.purgeOldDataRecord
      { pmem_data_record := d1, newer_version_timestamp := n1 } = none ∧
    OldRecordsCleaner.purgeOldDeleteRecord w
      { pmem_delete_record := d2, newer_version_timestamp := n2,
        hash_entry_ref := cell } = none ∧
    HashList.FetchID r = none := by
  refine ⟨?_, ?_, ?_⟩
  · unfold OldRecordsCleaner.purgeOldDataRecord
    cases hd : d1.etype <;> simp_all
  · unfold OldRecordsCleaner.purgeOldDeleteRecord
    cases hd : d2.etype <;> simp_all
  · unfold HashList.FetchID
    cases hr : r.record_type <;> simp_all

/-- Witness for C9 at concrete ill-typed records. -/
theorem unknown_record_type_crash_stop_witness :
    OldRecordsCleaner.purgeOldDataRecord
      { pmem_data_record := { etype := DataEntryType.Empty, record_size := 64, addr := 0 },
        newer_version_timestamp := 1 } = none ∧
    OldRecordsCleaner.purgeOldDeleteRecord { cells := [], linked := [] }
      { pmem_delete_record :=
          { etype := DataEntryType.StringDataRecord, record_size := 64, addr := 0 },
        newer_version_timestamp := 1, hash_entry_ref := 0 } = none ∧
    HashList.FetchID
      { record_size := 64, timestamp := 1, record_type := RecordType.StringRecord,
        record_status := RecordStatus.Normal, prev := 0, next := 0,
        old_version := none, expire_time := 0, key := [], value := [] } = none :=
  unknown_record_type_crash_stop
    { etype := DataEntryType.Empty, record_size := 64, addr := 0 }
    { etype := DataEntryType.StringDataRecord, record_size := 64, addr := 0 }
    1 1 0 { cells := [], linked := [] }
    { record_size := 64, timestamp := 1, record_type := RecordType.StringRecord,
      record_status := RecordStatus.Normal, prev := 0, next := 0,
      old_version := none, expire_time := 0, key := [], value := [] }
    (by decide) (by decide) (by decide)

/-! C4 and its supporting lemmas. -/

/-- The old-data scan purges exactly the eligible records, in order, and
keeps exactly the others. -/
theorem purgeDataPass_eq (l : List OldDataRecord) (oldest : Nat)
    (h : ∀ r ∈ l, (OldRecordsCleaner.purgeOldDataRecord r).isSome) :
    OldRecordsCleaner.purgeDataPass l oldest = some
      ((l.filter fun r => r.newer_version_timestamp ≤ oldest).filterMap
        OldRecordsCleaner.purgeOldDataRecord,
       l.filter fun r => oldest < r.newer_version_timestamp) := by
  induction l with
  | nil => simp [OldRecordsCleaner.purgeDataPass]
  | cons r rest ih =>
    have hr := h r (by simp)
    have hrest : ∀ x ∈ rest, (OldRecordsCleaner.purgeOldDataRecord x).isSome :=
      fun x hx => h x (List.mem_cons_of_mem _ hx)
    unfold OldRecordsCleaner.purgeDataPass
    by_cases hel : r.newer_version_timestamp ≤ oldest
    · rw [if_pos hel]
      obtain ⟨sp, hsp⟩ := Option.isSome_iff_exists.mp hr
      rw [hsp, ih hrest]
      simp [List.filter_cons, List.filterMap_cons, hel, hsp, Nat.not_lt.mpr hel]
    · rw [if_neg hel]
      rw [ih hrest]
      simp [List.filter_cons, hel, Nat.lt_of_not_le hel]

/-- A well-typed delete record always purges to its address and size,
whatever the engine state. -/
theorem purgeOldDeleteRecord_space (w : CleanerWorld) (r : OldDeleteRecord)
    (h : r.pmem_delete_record.etype = DataEntryType.StringDeleteRecord ∨
      r.pmem_delete_record.etype = DataEntryType.SortedDeleteRecord) :
    ∃ w2, OldRecordsCleaner.purgeOldDeleteRecord w r =
      some (deleteRecordSpace r, w2) := by
  unfold OldRecordsCleaner.purgeOldDeleteRecord deleteRecordSpace
  simp only []
  rcases h with h1 | h1 <;> rw [h1] <;> exact ⟨_, rfl⟩

/-- The old-delete scan purges exactly the eligible records, in order, and
keeps exactly the others. -/
theorem purgeDeletePass_eq (l : List OldDeleteRecord) :
    ∀ (oldest : Nat) (w : CleanerWorld),
    (∀ r ∈ l, r.pmem_delete_record.etype = DataEntryType.StringDeleteRecord ∨
      r.pmem_delete_record.etype = DataEntryType.SortedDeleteRecord) →
    ∃ w1, OldRecordsCleaner.purgeDeletePass l oldest w = some
      ((l.filter fun r => r.newer_version_timestamp ≤ oldest).map deleteRecordSpace,
       l.filter fun r => oldest < r.newer_version_timestamp, w1) := by
  induction l with
  | nil =>
    intro oldest w h
    exact ⟨w, by simp [OldRecordsCleaner.purgeDeletePass]⟩
  | cons r rest ih =>
    intro oldest w h
    have hr := h r (by simp)
    have hrest : ∀ x ∈ rest, _ := fun x hx => h x (List.mem_cons_of_mem _ hx)
    unfold OldRecordsCleaner.purgeDeletePass
    by_cases hel : r.newer_version_timestamp ≤ oldest
    · rw [if_pos hel]
      obtain ⟨w2, hw2⟩ := purgeOldDeleteRecord_space w r hr
      rw [hw2]
      simp only []
      obtain ⟨w1, hw1⟩ := ih oldest w2 hrest
      rw [hw1]
      refine ⟨w1, ?_⟩
      simp [List.filter_cons, hel, Nat.not_lt.mpr hel]
    · rw [if_neg hel]
      obtain ⟨w1, hw1⟩ := ih oldest w hrest
      rw [hw1]
      refine ⟨w1, ?_⟩
      simp [List.filter_cons, hel, Nat.lt_of_not_le hel]

/-- The pending-batch drain frees the longest eligible head segment and keeps
the rest of the FIFO. -/
theorem drainPending_eq (l : List PendingFreeSpaceEntries) (oldest : Nat) :
    OldRecordsCleaner.drainPending l oldest =
      ((l.takeWhile fun b => b.free_ts < oldest).map fun b => b.entries,
       l.dropWhile fun b => b.free_ts < oldest) := by
  induction l with
  | nil => simp [OldRecordsCleaner.drainPending]
  | cons b rest ih =>
    unfold OldRecordsCleaner.drainPending
    by_cases hb : b.free_ts < oldest
    · rw [if_pos hb]
      simp [List.takeWhile, List.dropWhile, hb, ih]
    · rw [if_neg hb]
      simp [List.takeWhile, List.dropWhile, hb]

/-- Draining the worker caches moves exactly the cached old-data records, and
exactly the old-delete backlogs past the high-water mark, into the global
queues. -/
theorem drainCaches_flatten (tcs : List ThreadCache) :
    ∀ (gd : List (List OldDataRecord)) (gdel : List (List OldDeleteRecord)),
    (OldRecordsCleaner.drainCaches tcs gd gdel).2.1.flatten =
      gd.flatten ++ (tcs.map fun tc => tc.old_data_records).flatten ∧
    (OldRecordsCleaner.drainCaches tcs gd gdel).2.2.flatten =
      gdel.flatten ++ (tcs.map fun tc =>
        if 10000000 < tc.old_delete_records.length then tc.old_delete_records
        else []).flatten := by
  induction tcs with
  | nil => intro gd gdel; simp [OldRecordsCleaner.drainCaches]
  | cons tc rest ih =>
    intro gd gdel
    unfold OldRecordsCleaner.drainCaches
    by_cases hout : 0 < tc.old_data_records.length ∨
        10000000 < tc.old_delete_records.length
    · rw [if_pos hout]
      by_cases hdat : 0 < tc.old_data_records.length
      · rw [if_pos hdat]
        by_cases hdel : 10000000 < tc.old_delete_records.length
        · simp only [if_pos hdel]
          obtain ⟨ih1, ih2⟩ := ih (gd ++ [tc.old_data_records])
            (gdel ++ [tc.old_delete_records])
          constructor
          · simp [ih1, List.map_cons, List.flatten_cons, List.flatten_append,
              List.append_assoc]
          · simp [ih2, hdel, List.map_cons, List.flatten_cons,
              List.flatten_append, List.append_assoc]
        · simp only [if_neg hdel]
          obtain ⟨ih1, ih2⟩ := ih (gd ++ [tc.old_data_records]) gdel
          constructor
          · simp [ih1, List.flatten_append, List.append_assoc]
          · simp [ih2, hdel]
      · rw [if_neg hdat]
        have hdata_nil : tc.old_data_records = [] := by
          cases hl : tc.old_data_records with
          | nil => rfl
          | cons a as => rw [hl] at hdat; exact absurd (by simp) hdat
        by_cases hdel : 10000000 < tc.old_delete_records.length
        · simp only [if_pos hdel]
          obtain ⟨ih1, ih2⟩ := ih gd (gdel ++ [tc.old_delete_records])
          constructor
          · simp [ih1, hdata_nil]
          · simp [ih2, hdel, List.flatten_append, List.append_assoc]
        · simp only [if_neg hdel]
          obtain ⟨ih1, ih2⟩ := ih gd gdel
          constructor
          · simp [ih1, hdata_nil]
          · simp [ih2, hdel]
    · rw [if_neg hout]
      have hdata_nil : tc.old_data_records = [] := by
        cases hl : tc.old_data_records with
        | nil => rfl
        | cons a as =>
          exact absurd (Or.inl (by rw [hl]; simp)) hout
      have hdel : ¬ 10000000 < tc.old_delete_records.length :=
        fun hx => hout (Or.inr hx)
      obtain ⟨ih1, ih2⟩ := ih gd gdel
      constructor
      · simp [ih1, hdata_nil]
      · simp [ih2, hdel]

/-- C4: in a run of TryCleanAll, every queued old-data and old-delete record
is purged exactly when its `newer_version_timestamp` is at most the oldest
snapshot timestamp and is otherwise re-queued for a later pass; the purged
delete records' spaces enter a new pending batch stamped with the current
timestamp; and the pending free-space FIFO is drained from the head,
batch-freeing every batch whose `free_ts` is below the oldest snapshot
timestamp and stopping at the first batch that is not eligible. The returned
batch list holds the drained pending batches followed by the purged data
records' spaces. -/
theorem tryCleanAll_eligibility_and_fifo (c : OldRecordsCleaner)
    (w : CleanerWorld) (ts oldest_snapshot_ts now2 : Nat)
    (hdata : ∀ r ∈ queuedDataRecords c,
      (OldRecordsCleaner.purgeOldDataRecord r).isSome)
    (hdel : ∀ r ∈ queuedDeleteRecords c,
      r.pmem_delete_record.etype = DataEntryType.StringDeleteRecord ∨
      r.pmem_delete_record.etype = DataEntryType.SortedDeleteRecord) :
    ∃ tcs1 w1, OldRecordsCleaner.TryCleanAll c w ts oldest_snapshot_ts now2 =
      some
        ({ thread_cache := tcs1,
           global_old_data_records :=
             [(queuedDataRecords c).filter fun r =>
               oldest_snapshot_ts < r.newer_version_timestamp],
           global_old_delete_records :=
             [(queuedDeleteRecords c).filter fun r =>
               oldest_snapshot_ts < r.newer_version_timestamp],
           pending_free_space_entries :=
             (if 0 < (((queuedDeleteRecords c).filter fun r =>
                   r.newer_version_timestamp ≤ oldest_snapshot_ts).map
                   deleteRecordSpace).length
              then c.pending_free_space_entries ++
                [{ entries := ((queuedDeleteRecords c).filter fun r =>
                     r.newer_version_timestamp ≤ oldest_snapshot_ts).map
                     deleteRecordSpace, free_ts := now2 }]
              else c.pending_free_space_entries).dropWhile
             fun b => b.free_ts < oldest_snapshot_ts,
           last_clean_all_ts := ts }, w1,
         ((if 0 < (((queuedDeleteRecords c).filter fun r =>
               r.newer_version_timestamp ≤ oldest_snapshot_ts).map
               deleteRecordSpace).length
           then c.pending_free_space_entries ++
             [{ entries := ((queuedDeleteRecords c).filter fun r =>
                 r.newer_version_timestamp ≤ oldest_snapshot_ts).map
                 deleteRecordSpace, free_ts := now2 }]
           else c.pending_free_space_entries).takeWhile
             fun b => b.free_ts < oldest_snapshot_ts).map (fun b => b.entries) ++
           (if 0 < (((queuedDataRecords c).filter fun r =>
                 r.newer_version_timestamp ≤ oldest_snapshot_ts).filterMap
                 OldRecordsCleaner.purgeOldDataRecord).length
            then [((queuedDataRecords c).filter fun r =>
                 r.newer_version_timestamp ≤ oldest_snapshot_ts).filterMap
                 OldRecordsCleaner.purgeOldDataRecord]
            else [])) := by
  obtain ⟨hdf, hdelf⟩ := drainCaches_flatten c.thread_cache
    c.global_old_data_records c.global_old_delete_records
  have hdata2 : ∀ r ∈ (OldRecordsCleaner.drainCaches c.thread_cache
      c.global_old_data_records c.global_old_delete_records).2.1.flatten,
      (OldRecordsCleaner.purgeOldDataRecord r).isSome := by
    rw [hdf]; exact hdata
  have hdel2 : ∀ r ∈ (OldRecordsCleaner.drainCaches c.thread_cache
      c.global_old_data_records c.global_old_delete_records).2.2.flatten,
      r.pmem_delete_record.etype = DataEntryType.StringDeleteRecord ∨
      r.pmem_delete_record.etype = DataEntryType.SortedDeleteRecord := by
    rw [hdelf]; exact hdel
  unfold OldRecordsCleaner.TryCleanAll
  simp only []
  rw [purgeDataPass_eq _ _ hdata2]
  simp only []
  obtain ⟨w1, hw1⟩ := purgeDeletePass_eq _ oldest_snapshot_ts w hdel2
  rw [hw1]
  simp only []
  rw [drainPending_eq]
  refine ⟨(OldRecordsCleaner.drainCaches c.thread_cache
    c.global_old_data_records c.global_old_delete_records).1, w1, ?_⟩
  simp only [queuedDataRecords, queuedDeleteRecords]
  rw [hdf, hdelf]

/-- Witness for C4 at a concrete cleaner state: with oldest snapshot
timestamp 5, the records stamped 2 and 3 are purged, the records stamped 7
and 9 are re-queued, the pending batch stamped 2 is batch-freed, and the
batches stamped 6 and 11 are retained. -/
theorem tryCleanAll_eligibility_and_fifo_witness :
    (∀ r ∈ queuedDataRecords cleanerW,
      (OldRecordsCleaner.purgeOldDataRecord r).isSome) ∧
    (∀ r ∈ queuedDeleteRecords cleanerW,
      r.pmem_delete_record.etype = DataEntryType.StringDeleteRecord ∨
      r.pmem_delete_record.etype = DataEntryType.SortedDeleteRecord) ∧
    ∃ tcs1 w1, OldRecordsCleaner.TryCleanAll cleanerW worldW 10 5 11 = some
      ({ thread_cache := tcs1,
         global_old_data_records :=
           [[⟨⟨DataEntryType.SortedDataRecord, 64, 400⟩, 7⟩]],
         global_old_delete_records :=
           [[⟨⟨DataEntryType.SortedDeleteRecord, 64, 600⟩, 9, 1⟩]],
         pending_free_space_entries :=
           [⟨[⟨800, 64⟩], 6⟩, ⟨[⟨500, 64⟩], 11⟩],
         last_clean_all_ts := 10 }, w1,
       [[⟨700, 64⟩], [⟨300, 64⟩]]) :=
  ⟨by decide, by decide,
    tryCleanAll_eligibility_and_fifo cleanerW worldW 10 5 11
      (by decide) (by decide)⟩

end KVDK
